import Mathlib

/-!
# Verification of the Lazy language interpreter (lazylang)

Shallow embedding of `src/main.rs`: the tagged value domain, the statement and
expression ASTs, the scope stack, the operator table, the built-in functions,
and the fueled tree-walking evaluator.  Rust `f64` numbers are modelled as
rationals (`Rat`); the float-to-integer casts (`as i64`, `as u64`, `as usize`)
are modelled with their Rust saturating / wrapping semantics made explicit.
-/

namespace Lazy

/-- Expressions, mirroring `enum Expr` in `src/main.rs`.  Number literals carry
the rational model of the `f64` payload. -/
inductive Expr where
  | num (n : Rat)
  | text (s : String)
  | bool (b : Bool)
  | var (name : String)
  | list (items : List Expr)
  | index (l : Expr) (i : Expr)
  | binaryOp (l : Expr) (op : String) (r : Expr)
  | functionCall (name : String) (args : List Expr) (mutates : Bool)
  | inputExpr

/-- Statements, mirroring `enum Statement` in `src/main.rs`. -/
inductive Statement where
  | print (e : Expr)
  | assign (name : String) (e : Expr)
  | augAssign (name : String) (op : String) (e : Expr)
  | incDec (name : String) (op : String)
  | ifS (cond : Expr) (thenB : List Statement)
        (elifs : List (Expr × List Statement)) (elseB : List Statement)
  | whileS (cond : Expr) (body : List Statement)
  | forS (v : String) (e : Expr) (body : List Statement)
  | functionDef (name : String) (params : List String) (body : List Statement)
  | quickFunctionDef (name : String) (params : List String) (e : Expr)
  | functionCall (name : String) (args : List Expr) (mutates : Bool)
  | ret (e : Expr)
  | input (vars : List String) (prompt : Option String) (isIter : Bool)

/-- Values, mirroring `enum Value` in `src/main.rs`.  `number` carries the
rational model of the `f64` payload: it represents every finite double
exactly, but has no representative for NaN or the infinities.  Where NaN
decides behaviour — the `partial_cmp ... unwrap_or(Equal)` arms of the sort
comparators and `f64` equality — the payload type `F64` below extends the
model with NaN and the affected code is replayed on it. -/
inductive Value where
  | number (n : Rat)
  | text (s : String)
  | bool (b : Bool)
  | nothing
  | list (items : List Value)
  | function (params : List String) (body : List Statement)

/-! ## Structural equality

Rust derives `PartialEq` for `Value`, `Statement` and `Expr`; `==` is
structural.  (On `f64` payloads Rust `==` is IEEE equality; in the rational
model it coincides with structural equality, as the model has no NaN and no
negative zero.)  These `beq` functions mirror that derived equality and are
used by the built-ins `><` and `<<`. -/

mutual

def beqExpr : Expr → Expr → Bool
  | .num a, .num b => a == b
  | .text a, .text b => a == b
  | .bool a, .bool b => a == b
  | .var a, .var b => a == b
  | .list a, .list b => beqExprList a b
  | .index l i, .index l' i' => beqExpr l l' && beqExpr i i'
  | .binaryOp l o r, .binaryOp l' o' r' => beqExpr l l' && o == o' && beqExpr r r'
  | .functionCall n a m, .functionCall n' a' m' => n == n' && beqExprList a a' && m == m'
  | .inputExpr, .inputExpr => true
  | _, _ => false

def beqExprList : List Expr → List Expr → Bool
  | [], [] => true
  | a :: as, b :: bs => beqExpr a b && beqExprList as bs
  | _, _ => false

end

mutual

def beqStmt : Statement → Statement → Bool
  | .print e, .print e' => beqExpr e e'
  | .assign n e, .assign n' e' => n == n' && beqExpr e e'
  | .augAssign n o e, .augAssign n' o' e' => n == n' && o == o' && beqExpr e e'
  | .incDec n o, .incDec n' o' => n == n' && o == o'
  | .ifS c t el e, .ifS c' t' el' e' =>
      beqExpr c c' && beqStmtList t t' && beqElifList el el' && beqStmtList e e'
  | .whileS c b, .whileS c' b' => beqExpr c c' && beqStmtList b b'
  | .forS v e b, .forS v' e' b' => v == v' && beqExpr e e' && beqStmtList b b'
  | .functionDef n p b, .functionDef n' p' b' => n == n' && p == p' && beqStmtList b b'
  | .quickFunctionDef n p e, .quickFunctionDef n' p' e' => n == n' && p == p' && beqExpr e e'
  | .functionCall n a m, .functionCall n' a' m' => n == n' && beqExprList a a' && m == m'
  | .ret e, .ret e' => beqExpr e e'
  | .input v p i, .input v' p' i' => v == v' && p == p' && i == i'
  | _, _ => false

def beqStmtList : List Statement → List Statement → Bool
  | [], [] => true
  | a :: as, b :: bs => beqStmt a b && beqStmtList as bs
  | _, _ => false

def beqElifList : List (Expr × List Statement) → List (Expr × List Statement) → Bool
  | [], [] => true
  | (c, b) :: as, (c', b') :: bs => beqExpr c c' && beqStmtList b b' && beqElifList as bs
  | _, _ => false

end

mutual

def beqValue : Value → Value → Bool
  | .number a, .number b => a == b
  | .text a, .text b => a == b
  | .bool a, .bool b => a == b
  | .nothing, .nothing => true
  | .list a, .list b => beqValueList a b
  | .function p b, .function p' b' => p == p' && beqStmtList b b'
  | _, _ => false

def beqValueList : List Value → List Value → Bool
  | [], [] => true
  | a :: as, b :: bs => beqValue a b && beqValueList as bs
  | _, _ => false

end

/-! ## Number helpers: Rust casts and decimal text

Rust float-to-integer `as` casts truncate toward zero and saturate at the
target type's bounds; integer-to-integer `as` casts wrap (two's complement).
The rational model makes both explicit. -/

def i64Min : Int := -(2 ^ 63)

def i64Max : Int := 2 ^ 63 - 1

/-- Truncation toward zero of a rational (`Int.tdiv` is truncating
division), modelling the integral part taken by Rust `as` casts. -/
def ratTrunc (q : Rat) : Int := q.num.tdiv q.den

/-- Rust `f64 as i64`: truncate toward zero, saturating at the `i64` bounds. -/
def f64AsI64 (q : Rat) : Int :=
  if ratTrunc q < i64Min then i64Min
  else if ratTrunc q > i64Max then i64Max
  else ratTrunc q

/-- Rust `f64 as u64`: truncate toward zero, saturating at the `u64` bounds. -/
def f64AsU64 (q : Rat) : Nat :=
  if ratTrunc q < 0 then 0
  else if ratTrunc q > (2 ^ 64 - 1 : Int) then 2 ^ 64 - 1
  else (ratTrunc q).toNat

/-- Rust `i64 as usize` on a 64-bit target: two's-complement wrap. -/
def i64AsUsize (i : Int) : Nat := (i % (2 ^ 64 : Int)).toNat

/-- Rust `usize as i64` on a 64-bit target: two's-complement wrap. -/
def usizeAsI64 (n : Nat) : Int := ((n : Int) + 2 ^ 63) % 2 ^ 64 - 2 ^ 63

/-- Little-endian decimal digits of `n`; the first argument is fuel (any bound
at least `n` gives all digits). -/
def natDigitsAux : Nat → Nat → List Nat
  | _, 0 => []
  | 0, _ => []
  | fuel + 1, n => n % 10 :: natDigitsAux fuel (n / 10)

/-- Fueled binary logarithm: `natLog2Aux fuel n` is `floor (log2 n)` whenever
`n ≤ fuel` and `1 ≤ n` (kernel-reducible, unlike a well-founded
definition). -/
def natLog2Aux : Nat → Nat → Nat
  | _, 0 => 0
  | 0, _ => 0
  | fuel + 1, n => if n ≥ 2 then natLog2Aux fuel (n / 2) + 1 else 0

def natLog2 (n : Nat) : Nat := natLog2Aux n n

/-- Decimal digit characters of a natural number, most significant first,
as produced by Rust's integer `Display`. -/
def natDecChars (n : Nat) : List Char :=
  if n = 0 then ['0']
  else ((natDigitsAux n n).map (fun d => Char.ofNat (48 + d))).reverse

def natToDecStr (n : Nat) : String := String.mk (natDecChars n)

/-- Decimal form of an `i64` value, as printed by Rust's `Display`. -/
def intToDecStr (i : Int) : String :=
  if i < 0 then "-" ++ natToDecStr i.natAbs else natToDecStr i.toNat

/-! ## Parsing text to numbers (Rust `str::parse::<f64>`)

Modelled from the documented Rust grammar `[+-]? digits [. digits] [eE [+-]
digits]` (also `.5`, `5.`).  The special forms `inf`, `infinity` and `nan`
have no rational counterpart and are left out of the model; no claim relies
on them. -/

def isDigitChar (c : Char) : Bool := 48 ≤ c.toNat && c.toNat ≤ 57

def digitVal (c : Char) : Nat := c.toNat - 48

/-- Numeric value of a most-significant-first digit string. -/
def natFromDigits (cs : List Char) : Nat :=
  cs.foldl (fun a c => 10 * a + digitVal c) 0

/-- Parse an optional exponent suffix and apply it to `base`. -/
def parseExpPart (base : Rat) (cs : List Char) : Option Rat :=
  match cs with
  | [] => some base
  | c :: r =>
    if c = 'e' ∨ c = 'E' then
      let sr : Int × List Char :=
        match r with
        | '+' :: t => (1, t)
        | '-' :: t => (-1, t)
        | t => (1, t)
      let ds := sr.2.takeWhile isDigitChar
      let r3 := sr.2.dropWhile isDigitChar
      if ds = [] ∨ r3 ≠ [] then none
      else some (base * (10 : Rat) ^ (sr.1 * (natFromDigits ds : Int)))
    else none

/-- Parse the unsigned part: integer digits, optional fraction, optional
exponent. -/
def parseF64Core (cs : List Char) : Option Rat :=
  let ip := cs.takeWhile isDigitChar
  let r1 := cs.dropWhile isDigitChar
  match r1 with
  | [] => if ip = [] then none else some ((natFromDigits ip : Nat) : Rat)
  | '.' :: r2 =>
    let fp := r2.takeWhile isDigitChar
    let r3 := r2.dropWhile isDigitChar
    if ip = [] ∧ fp = [] then none
    else
      parseExpPart
        ((natFromDigits ip : Nat) +
          ((natFromDigits fp : Nat) : Rat) / (10 : Rat) ^ fp.length) r3
  | _ =>
    if ip = [] then none
    else parseExpPart ((natFromDigits ip : Nat) : Rat) r1

/-! ### IEEE-754 binary64 rounding

Rust's parser rounds the exact decimal value to the nearest `f64`
(round-to-nearest, ties to even).  The rounding is modelled exactly on the
rational value: pick the binade of the magnitude, scale to an integral
significand, round half-to-even and scale back. -/

/-- Floor of a rational (truncating `Int.fdiv` is floor division). -/
def ratFloor (x : Rat) : Int := Int.fdiv x.num x.den

/-- Round a rational to the nearest integer, ties to even. -/
def roundHalfEven (x : Rat) : Int :=
  if x - (ratFloor x : Rat) < 1 / 2 then ratFloor x
  else if (1 : Rat) / 2 < x - (ratFloor x : Rat) then ratFloor x + 1
  else if 2 ∣ ratFloor x then ratFloor x else ratFloor x + 1

/-- `floor (log2 q)` for a positive rational: the log2 of numerator over
denominator is off by at most one, fixed up by a single comparison. -/
def ratFloorLog2 (q : Rat) : Int :=
  if q < (2 : Rat) ^ ((natLog2 q.num.toNat : Int) - (natLog2 q.den : Int))
  then (natLog2 q.num.toNat : Int) - (natLog2 q.den : Int) - 1
  else (natLog2 q.num.toNat : Int) - (natLog2 q.den : Int)

/-- The scaling exponent of the `f64` nearest a positive rational: normal
numbers carry a 53-bit significand, anything below the normal range is
scaled as a subnormal. -/
def f64Exp (s : Rat) : Int :=
  if ratFloorLog2 s ≤ -1023 then -1074 else ratFloorLog2 s - 52

/-- Round a positive rational to the nearest binary64 value (before the
overflow check). -/
def roundF64Pos (s : Rat) : Rat :=
  (roundHalfEven (s * (2 : Rat) ^ (-(f64Exp s))) : Int) * (2 : Rat) ^ f64Exp s

/-- Round a rational to the nearest binary64 value; `none` when the result
overflows to an infinity, which the rational model cannot represent (no
claim exercises that case). -/
def roundF64 (q : Rat) : Option Rat :=
  if q = 0 then some 0
  else if roundF64Pos |q| < (2 : Rat) ^ (1024 : Int) then
    some (if q < 0 then -roundF64Pos |q| else roundF64Pos |q|)
  else none

/-- Rational model of Rust `s.parse::<f64>()`: parse the exact decimal value
and round it to the nearest `f64`. -/
def parseF64 (s : String) : Option Rat :=
  match s.data with
  | [] => none
  | '+' :: t => (parseF64Core t).bind roundF64
  | '-' :: t => ((parseF64Core t).bind roundF64).map (fun q => -q)
  | cs => (parseF64Core cs).bind roundF64

/-! ## Display (`impl Display for Value`) -/

/-- Stands in for the non-integral branch of the Number arm of `Display`
(`write!(f, "{}", n)` in `src/main.rs`, line 24): Rust prints the shortest
decimal that round-trips the `f64`, a formatting with no counterpart on the
rational model, so a canonical numerator/denominator form is used.  No
theorem in this file evaluates this branch (every claim about `$`/Display
concerns integral numbers, which take the other branch). -/
def nonIntegralFmt (q : Rat) : String :=
  intToDecStr q.num ++ "/" ++ natToDecStr q.den

/-- `impl Display for Value` from `src/main.rs`: integral numbers print as
`*n as i64`, booleans as `yes`/`no`, Nothing as the empty string, lists as
space-joined items in brackets with Text items quoted, functions as a fixed
tag. -/
def toDisplay : Value → String
  | .number n => if n.den = 1 then intToDecStr (f64AsI64 n) else nonIntegralFmt n
  | .text s => s
  | .bool b => if b then "yes" else "no"
  | .nothing => ""
  | .list items =>
      "[" ++ String.intercalate " "
        (items.attach.map (fun x =>
          match x with
          | ⟨.text t, _⟩ => "\"" ++ t ++ "\""
          | ⟨v, _⟩ => toDisplay v)) ++ "]"
  | .function _ _ => "<function>"
decreasing_by
  simp_wf
  rename_i hv
  have := List.sizeOf_lt_of_mem hv
  omega

/-! ## Scopes -/

/-- One scope: an association list standing in for Rust's `HashMap`; `insert`
replaces the binding in place, `lookup` finds the unique binding. -/
abbrev Scope := List (String × Value)

def scopeLookup (n : String) : Scope → Option Value
  | [] => none
  | (k, w) :: t => if k = n then some w else scopeLookup n t

/-- `HashMap::insert`: overwrite the existing binding, else add one. -/
def scopeInsert (n : String) (v : Value) : Scope → Scope
  | [] => [(n, v)]
  | (k, w) :: t => if k = n then (n, v) :: t else (k, w) :: scopeInsert n v t

/-- `Interpreter::get_var`: search from the innermost scope (head of the
list) outwards; a missing name yields `Nothing`. -/
def getVar : List Scope → String → Value
  | [], _ => .nothing
  | sc :: rest, n =>
    match scopeLookup n sc with
    | some v => v
    | none => getVar rest n

/-- Write to the innermost scope already containing `n`; `none` if no scope
contains it. -/
def setVarAux (n : String) (v : Value) : List Scope → Option (List Scope)
  | [] => none
  | sc :: rest =>
    if (scopeLookup n sc).isSome then some (scopeInsert n v sc :: rest)
    else (setVarAux n v rest).map (fun r => sc :: r)

/-- `Interpreter::set_var`: write to the innermost scope that contains `n`;
otherwise insert into the innermost scope (no-op on an empty stack, which the
interpreter never produces). -/
def setVar (scopes : List Scope) (n : String) (v : Value) : List Scope :=
  match setVarAux n v scopes with
  | some r => r
  | none =>
    match scopes with
    | [] => []
    | sc :: rest => scopeInsert n v sc :: rest

/-- Binding of the innermost scope for a `FunctionDef` (`scopes.last_mut()`
in Rust is the innermost scope, the head here). -/
def defineInTop (scopes : List Scope) (n : String) (v : Value) : List Scope :=
  match scopes with
  | [] => []
  | sc :: rest => scopeInsert n v sc :: rest

/-- The parameter scope built by `call_function`: for each parameter with a
matching argument, insert the binding; parameters beyond the argument list
are omitted, extra arguments are dropped. -/
def bindParams (params : List String) (args : List Value) : Scope :=
  (params.zip args).foldl (fun sc pa => scopeInsert pa.1 pa.2 sc) []

/-! ## The binary operator table (`Interpreter::apply_op`) -/

/-- `f64::EPSILON`, the tolerance of numeric `==`/`!=`. -/
def f64Epsilon : Rat := 1 / 2 ^ 52

/-- Rust `%` on `f64` is the remainder of truncating division; modelled on
rationals (the `r = 0` case, NaN in Rust, maps to `l` as ℚ-division by zero
truncates to 0 — no claim touches it). -/
def ratRem (l r : Rat) : Rat := l - r * (ratTrunc (l / r) : Rat)

def applyOp (left : Value) (op : String) (right : Value) : Value :=
  match left, right with
  | .number l, .number r =>
    match op with
    | "+" => .number (l + r)
    | "-" => .number (l - r)
    | "*" => .number (l * r)
    | "/" => .number (l / r)
    | "%" => .number (ratRem l r)
    | ">" => .bool (decide (l > r))
    | "<" => .bool (decide (l < r))
    | "==" => .bool (decide (|l - r| < f64Epsilon))
    | "!=" => .bool (decide (|l - r| ≥ f64Epsilon))
    | ">=" => .bool (decide (l ≥ r))
    | "<=" => .bool (decide (l ≤ r))
    | _ => .nothing
  | .text l, .text r =>
    if op = "+" then .text (l ++ r)
    else if op = "==" then .bool (l == r)
    else if op = "!=" then .bool (l != r)
    else .nothing
  | .text l, .number r =>
    if op = "+" then .text (l ++ toDisplay (.number r)) else .nothing
  | .number l, .text r =>
    if op = "+" then .text (toDisplay (.number l) ++ r) else .nothing
  | .bool l, .bool r =>
    if op = "==" then .bool (l == r)
    else if op = "!=" then .bool (l != r)
    else .nothing
  | .list l, .list r =>
    if op = "+" then .list (l ++ r) else .nothing
  | _, _ => .nothing

/-! ## Sorting (`Vec::sort_by`)

`Vec::sort_by` is a stable sort driven by a comparator.  A stable sort's
output is determined by the comparator and stability alone, so it is modelled
by a stable insertion sort parameterised by the "not greater" relation of the
comparator. -/

def insertLe {α : Type} (le : α → α → Bool) (a : α) : List α → List α
  | [] => [a]
  | b :: l => if le a b then a :: b :: l else b :: insertLe le a l

def sortByLe {α : Type} (le : α → α → Bool) : List α → List α
  | [] => []
  | a :: l => insertLe le a (sortByLe le l)

/-- `f64::partial_cmp` on the rational model (total, so `unwrap_or(Equal)`
never fires; the model has no NaN). -/
def ratCmp (x y : Rat) : Ordering :=
  if x < y then .lt else if x = y then .eq else .gt

/-- The comparator of built-in `++` (ascending): `partial_cmp` on numbers,
`cmp` on texts, `Equal` on any other pair.  Rust's byte-wise `str` order
coincides with code-point order on UTF-8, which is Lean's `compare` on
strings. -/
def valueCmpAsc : Value → Value → Ordering
  | .number x, .number y => ratCmp x y
  | .text x, .text y => compare x y
  | _, _ => .eq

/-- The comparator of built-in `--` (descending): arguments mirrored. -/
def valueCmpDesc : Value → Value → Ordering
  | .number x, .number y => ratCmp y x
  | .text x, .text y => compare y x
  | _, _ => .eq

/-- `sort_by` orders the list so that the comparator never reports `Greater`
on adjacent elements. -/
def cmpToLe {α : Type} (c : α → α → Ordering) (a b : α) : Bool :=
  c a b ≠ .gt

/-! ### The NaN corner of the Number payload

`Value.number` carries a rational and so represents every finite double but
not NaN, yet NaN is a Number the language can produce (`0 / 0`) and the sort
comparators treat it specially: `partial_cmp` returns `None` against NaN and
the source collapses that to `Equal` (`unwrap_or(std::cmp::Ordering::Equal)`,
`src/main.rs` lines 420 and 434), while `f64` equality makes NaN unequal to
everything including itself.  `F64` extends the payload with NaN and the
comparator and equality arms are replayed on it verbatim. -/

inductive F64 where
  | finite (q : Rat)
  | nan
deriving DecidableEq

/-- `f64::partial_cmp`: `None` exactly when NaN is involved. -/
def f64PartialCmp : F64 → F64 → Option Ordering
  | .finite x, .finite y => some (ratCmp x y)
  | _, _ => none

/-- The `(Value::Number(x), Value::Number(y))` comparator arm of built-in
`++`: `x.partial_cmp(y).unwrap_or(Equal)`. -/
def numCmpAsc (a b : F64) : Ordering := (f64PartialCmp a b).getD .eq

/-- The `(Value::Number(x), Value::Number(y))` comparator arm of built-in
`--`: `y.partial_cmp(x).unwrap_or(Equal)`. -/
def numCmpDesc (a b : F64) : Ordering := (f64PartialCmp b a).getD .eq

/-- `f64` equality (`PartialEq`): NaN is unequal to everything, itself
included. -/
def f64Beq : F64 → F64 → Bool
  | .finite x, .finite y => x == y
  | _, _ => false

/-- Element-wise `Vec<f64>` equality (derived `PartialEq` on `Value::List`
of Numbers). -/
def f64ListBeq : List F64 → List F64 → Bool
  | [], [] => true
  | a :: as, b :: bs => f64Beq a b && f64ListBeq as bs
  | _, _ => false

/-! ## The xorshift random generator -/

/-- `Interpreter::next_random`'s xorshift (13, 7, 17) step on 64-bit state. -/
def xorshift64 (x0 : Nat) : Nat :=
  let x1 := (x0 ^^^ (x0 <<< 13)) % 2 ^ 64
  let x2 := x1 ^^^ (x1 >>> 7)
  (x2 ^^^ (x2 <<< 17)) % 2 ^ 64

/-- `next_random`: `max = 0` returns 0 without advancing the state; otherwise
advance and return `state mod max`.  Result is (value, new state). -/
def nextRandom (st : Nat) (max : Nat) : Rat × Nat :=
  if max = 0 then (0, st)
  else
    let x := xorshift64 st
    (((x % max : Nat) : Rat), x)

/-! ## Built-in functions

The non-random arms of `Interpreter::call_function`, in source order.  They
read no interpreter state, so they are a pure function from name and
arguments; `none` means "not one of these built-ins" (the `?=` arm, which
owns the RNG state, and user functions are handled in `callFunction`). -/

def joinItemStr (v : Value) : String :=
  match v with
  | .text t => t
  | _ => toDisplay v

def callBuiltin (name : String) (args : List Value) : Option Value :=
  match name with
  | "#" =>
    some (match (args[0]? : Option Value) with
      | some (.list i) => .number (i.length : Nat)
      | some (.text s) => .number (s.utf8ByteSize : Nat)
      | _ => .number 0)
  | "$" =>
    some (match (args[0]? : Option Value) with
      | some v => .text (toDisplay v)
      | none => .text "")
  | "~" =>
    some (match (args[0]? : Option Value) with
      | some (.text s) =>
        (match parseF64 s with
         | some q => .number q
         | none => .number 0)
      | some (.number n) => .number n
      | _ => .number 0)
  | "^" =>
    some (match (args[0]? : Option Value), (args[1]? : Option Value) with
      | some (.list items), some v => .list (items ++ [v])
      | _, _ => .nothing)
  | "v" =>
    some (match (args[0]? : Option Value) with
      | some (.list items) =>
        if items.isEmpty then .nothing else .list items.dropLast
      | _ => .nothing)
  | "&" =>
    some (match (args[0]? : Option Value), (args[1]? : Option Value) with
      | some (.list items), some (.text sep) =>
        .text (String.intercalate sep (items.map joinItemStr))
      | _, _ => .text "")
  | "|" =>
    some (match (args[0]? : Option Value), (args[1]? : Option Value) with
      | some (.text s), some (.text sep) =>
        if sep = "" then .list []
        else .list ((s.splitOn sep).map .text)
      | _, _ => .list [])
  | "!" =>
    some (match (args[0]? : Option Value) with
      | some (.bool b) => .bool (!b)
      | _ => .bool false)
  | "<>" =>
    some (match (args[0]? : Option Value) with
      | some (.list items) => .list items.reverse
      | _ => .nothing)
  | "++" =>
    some (match (args[0]? : Option Value) with
      | some (.list items) => .list (sortByLe (cmpToLe valueCmpAsc) items)
      | _ => .nothing)
  | "--" =>
    some (match (args[0]? : Option Value) with
      | some (.list items) => .list (sortByLe (cmpToLe valueCmpDesc) items)
      | _ => .nothing)
  | "><" =>
    some (match (args[0]? : Option Value), (args[1]? : Option Value) with
      | some (.list items), some v =>
        .bool (items.any (fun item => beqValue item v))
      | _, _ => .bool false)
  | "<<" =>
    some (match (args[0]? : Option Value) with
      | some (.list items) =>
        .list (items.foldl
          (fun u item => if u.any (fun w => beqValue w item) then u else u ++ [item]) [])
      | _ => .nothing)
  | _ => none

/-! ## Interpreter state -/

/-- The interpreter's mutable state together with its external collaborators:
the scope stack and RNG state of `struct Interpreter`, plus the line provider
(pending input lines, already trimmed) and the output sink (lines printed so
far, in order).  Prompts are written by the provider, not the sink, and are
not recorded. -/
structure InterpState where
  scopes : List Scope
  rng : Nat
  inputLines : List String
  output : List String

/-- The line provider: one line per call; an exhausted provider yields the
empty string (in the real program it would block on the console). -/
def readLine (inp : List String) : String × List String :=
  match inp with
  | [] => ("", [])
  | l :: rest => (l, rest)

/-- `Interpreter::parse_input_value`: a line that parses as `f64` becomes a
Number, anything else Text. -/
def parseInputValue (line : String) : Value :=
  match parseF64 line with
  | some q => .number q
  | none => .text line

/-- The loop bodies of `Statement::Input`: one read per variable, each value
scope-set.  Prompts (including the `{?}` index substitution of iterated
input) only affect what the provider displays, which the model does not
record, so both branches coincide. -/
def runInputVars (s : InterpState) : List String → InterpState
  | [] => s
  | v :: rest =>
    let lr := readLine s.inputLines
    runInputVars
      { s with
        scopes := setVar s.scopes v (parseInputValue lr.1)
        inputLines := lr.2 } rest

/-- `matches!(v, Value::Bool(true))`. -/
def isTrue : Value → Bool
  | .bool true => true
  | _ => false

/-- Structural comparison with `Value::Nothing` (`val == Value::Nothing`). -/
def isNothing : Value → Bool
  | .nothing => true
  | _ => false

/-! ## The evaluator

Fueled mutual recursion: `none` means the fuel ran out (the Rust interpreter
would still be running); every other behaviour of `Interpreter::execute`,
`run_block`, `eval_expr` and `call_function` is reproduced, with statement
results `Option Value` (the pending return) as in the source.  Every
recursive call decreases the fuel by one. -/

mutual

/-- `Interpreter::eval_expr`. -/
def evalExpr : Nat → InterpState → Expr → Option (InterpState × Value)
  | 0, _, _ => none
  | _ + 1, s, .num n => some (s, .number n)
  | _ + 1, s, .text t => some (s, .text t)
  | _ + 1, s, .bool b => some (s, .bool b)
  | _ + 1, s, .var n => some (s, getVar s.scopes n)
  | fuel + 1, s, .list items =>
    match evalExprs fuel s items with
    | some (s₁, vals) => some (s₁, .list vals)
    | none => none
  | fuel + 1, s, .index le ie =>
    match evalExpr fuel s le with
    | some (s₁, lv) =>
      match evalExpr fuel s₁ ie with
      | some (s₂, iv) =>
        match lv, iv with
        | .list items, .number q =>
          let i := f64AsI64 q
          let actual :=
            if i < 0 then i64AsUsize (usizeAsI64 items.length + i)
            else i64AsUsize i
          some (s₂,
            if actual < items.length then items.getD actual .nothing
            else .nothing)
        | _, _ => some (s₂, .nothing)
      | none => none
    | none => none
  | fuel + 1, s, .binaryOp l op r =>
    match evalExpr fuel s l with
    | some (s₁, lv) =>
      match evalExpr fuel s₁ r with
      | some (s₂, rv) => some (s₂, applyOp lv op rv)
      | none => none
    | none => none
  | fuel + 1, s, .functionCall name args mutates =>
    match evalExprs fuel s args with
    | some (s₁, vals) =>
      match callFunction fuel s₁ name vals mutates with
      | some (s₂, result) =>
        if mutates then
          match args with
          | .var x :: _ =>
            some ({ s₂ with scopes := setVar s₂.scopes x result }, result)
          | _ => some (s₂, result)
        else some (s₂, result)
      | none => none
    | none => none
  | _ + 1, s, .inputExpr =>
    let lr := readLine s.inputLines
    some ({ s with inputLines := lr.2 }, parseInputValue lr.1)

/-- Left-to-right evaluation of an argument list
(`args.iter().map(|a| self.eval_expr(a)).collect()`). -/
def evalExprs : Nat → InterpState → List Expr → Option (InterpState × List Value)
  | 0, _, _ => none
  | _ + 1, s, [] => some (s, [])
  | fuel + 1, s, e :: rest =>
    match evalExpr fuel s e with
    | some (s₁, v) =>
      match evalExprs fuel s₁ rest with
      | some (s₂, vs) => some (s₂, v :: vs)
      | none => none
    | none => none

/-- `Interpreter::execute`. -/
def execStmt : Nat → InterpState → Statement → Option (InterpState × Option Value)
  | 0, _, _ => none
  | fuel + 1, s, .print e =>
    match evalExpr fuel s e with
    | some (s₁, v) =>
      if isNothing v then some (s₁, none)
      else some ({ s₁ with output := s₁.output ++ [toDisplay v] }, none)
    | none => none
  | fuel + 1, s, .assign name e =>
    match evalExpr fuel s e with
    | some (s₁, v) => some ({ s₁ with scopes := setVar s₁.scopes name v }, none)
    | none => none
  | fuel + 1, s, .augAssign name op e =>
    let cur := getVar s.scopes name
    if isNothing cur then some (s, none)
    else
      match evalExpr fuel s e with
      | some (s₁, operand) =>
        some ({ s₁ with scopes := setVar s₁.scopes name (applyOp cur op operand) }, none)
      | none => none
  | _ + 1, s, .incDec name op =>
    let cur := getVar s.scopes name
    let newVal :=
      if op = "++" then applyOp cur "+" (.number 1)
      else if op = "--" then applyOp cur "-" (.number 1)
      else cur
    some ({ s with scopes := setVar s.scopes name newVal }, none)
  | fuel + 1, s, .ifS cond thenB elifs elseB =>
    match evalExpr fuel s cond with
    | some (s₁, cv) =>
      if isTrue cv then runBlock fuel s₁ thenB
      else runElifs fuel s₁ elifs elseB
    | none => none
  | fuel + 1, s, .whileS cond body =>
    match evalExpr fuel s cond with
    | some (s₁, cv) =>
      if isTrue cv then
        match runBlock fuel s₁ body with
        | some (s₂, some v) => some (s₂, some v)
        | some (s₂, none) => execStmt fuel s₂ (.whileS cond body)
        | none => none
      else some (s₁, none)
    | none => none
  | fuel + 1, s, .forS v e body =>
    match evalExpr fuel s e with
    | some (s₁, val) =>
      match val with
      | .list items => forLoop fuel s₁ v items body
      | _ => some (s₁, none)
    | none => none
  | _ + 1, s, .functionDef name params body =>
    some ({ s with scopes := defineInTop s.scopes name (.function params body) }, none)
  | _ + 1, s, .quickFunctionDef name params e =>
    some ({ s with scopes := defineInTop s.scopes name (.function params [.ret e]) }, none)
  | fuel + 1, s, .functionCall name args mutates =>
    match evalExprs fuel s args with
    | some (s₁, vals) =>
      match callFunction fuel s₁ name vals mutates with
      | some (s₂, result) =>
        if mutates then
          match args with
          | .var x :: _ =>
            some ({ s₂ with scopes := setVar s₂.scopes x result }, none)
          | _ => some (s₂, none)
        else some (s₂, none)
      | none => none
    | none => none
  | _ + 1, s, .input vars _prompt _isIter => some (runInputVars s vars, none)
  | fuel + 1, s, .ret e =>
    match evalExpr fuel s e with
    | some (s₁, v) => some (s₁, some v)
    | none => none

/-- `Interpreter::run_block`: first pending return aborts the rest. -/
def runBlock : Nat → InterpState → List Statement → Option (InterpState × Option Value)
  | 0, _, _ => none
  | _ + 1, s, [] => some (s, none)
  | fuel + 1, s, st :: rest =>
    match execStmt fuel s st with
    | some (s₁, some v) => some (s₁, some v)
    | some (s₁, none) => runBlock fuel s₁ rest
    | none => none

/-- The else-if chain of `Statement::If`: first true condition wins, else the
else-block runs. -/
def runElifs : Nat → InterpState → List (Expr × List Statement) → List Statement →
    Option (InterpState × Option Value)
  | 0, _, _, _ => none
  | fuel + 1, s, [], elseB => runBlock fuel s elseB
  | fuel + 1, s, (c, b) :: rest, elseB =>
    match evalExpr fuel s c with
    | some (s₁, cv) =>
      if isTrue cv then runBlock fuel s₁ b else runElifs fuel s₁ rest elseB
    | none => none

/-- The iteration of `Statement::For`: bind the element, run the body, abort
on a pending return. -/
def forLoop : Nat → InterpState → String → List Value → List Statement →
    Option (InterpState × Option Value)
  | 0, _, _, _, _ => none
  | _ + 1, s, _, [], _ => some (s, none)
  | fuel + 1, s, v, item :: rest, body =>
    match runBlock fuel { s with scopes := setVar s.scopes v item } body with
    | some (s₂, some r) => some (s₂, some r)
    | some (s₂, none) => forLoop fuel s₂ v rest body
    | none => none

/-- `Interpreter::call_function`: the `?=` arm (owning the RNG), the pure
built-ins, then user-function dispatch (push parameter scope, run body, pop,
unwrap the pending return).  The `mutates` flag is carried but unused, as in
the source. -/
def callFunction : Nat → InterpState → String → List Value → Bool →
    Option (InterpState × Value)
  | 0, _, _, _, _ => none
  | fuel + 1, s, name, args, _mutates =>
    if name = "?=" then
      match (args[0]? : Option Value) with
      | some (.number m) =>
        let vr := nextRandom s.rng (f64AsU64 m)
        some ({ s with rng := vr.2 }, .number vr.1)
      | _ => some (s, .number 0)
    else
      match callBuiltin name args with
      | some v => some (s, v)
      | none =>
        match getVar s.scopes name with
        | .function params body =>
          match runBlock fuel { s with scopes := bindParams params args :: s.scopes } body with
          | some (s₂, r) =>
            some ({ s₂ with scopes := s₂.scopes.drop 1 }, r.getD .nothing)
          | none => none
        | _ => some (s, .nothing)

end

/-! ## Predicates used to state the claims -/

/-- The reserved built-in names of `call_function`. -/
def builtinNames : List String :=
  ["?=", "#", "$", "~", "^", "v", "&", "|", "!", "<>", "++", "--", "><", "<<"]

def isBuiltinName (n : String) : Bool := builtinNames.contains n

def isNumberV : Value → Bool
  | .number _ => true
  | _ => false

def isTextV : Value → Bool
  | .text _ => true
  | _ => false

/-- Shape tests on an optional argument, mirroring the `if let` guards of the
built-in arms. -/
def optIsList : Option Value → Bool
  | some (.list _) => true
  | _ => false

def optIsText : Option Value → Bool
  | some (.text _) => true
  | _ => false

def optIsBool : Option Value → Bool
  | some (.bool _) => true
  | _ => false

def optIsNumber : Option Value → Bool
  | some (.number _) => true
  | _ => false

/-- Whether the first argument expression of a call is a `Variable`
(`if let Some(Expr::Variable(..)) = args.first()`). -/
def firstIsVar : List Expr → Bool
  | .var _ :: _ => true
  | _ => false

/-- The operand-shape test of `Expr::Index`: a List indexed by a Number. -/
def isListNumberPair : Value → Value → Bool
  | .list _, .number _ => true
  | _, _ => false

/-! # Theorems -/

/-! ## Scope-stack helper lemmas -/

theorem scopeLookup_scopeInsert_self (n : String) (v : Value) :
    ∀ sc : Scope, scopeLookup n (scopeInsert n v sc) = some v
  | [] => by simp [scopeInsert, scopeLookup]
  | (k, w) :: t => by
    by_cases h : k = n <;>
      simp [scopeInsert, h, scopeLookup, scopeLookup_scopeInsert_self n v t]

theorem setVarAux_length (n : String) (v : Value) :
    ∀ scopes r, setVarAux n v scopes = some r → r.length = scopes.length := by
  intro scopes
  induction scopes with
  | nil => intro r h; simp [setVarAux] at h
  | cons sc rest ih =>
    intro r h
    simp only [setVarAux] at h
    split at h
    · cases h; simp
    · cases hr : setVarAux n v rest with
      | none => rw [hr] at h; simp at h
      | some r2 => rw [hr] at h; simp at h; subst h; simp [ih r2 hr]

theorem setVar_length (scopes : List Scope) (n : String) (v : Value) :
    (setVar scopes n v).length = scopes.length := by
  unfold setVar
  cases hr : setVarAux n v scopes with
  | some r => exact setVarAux_length n v scopes r hr
  | none => cases scopes <;> simp

theorem getVar_setVarAux (n : String) (v : Value) :
    ∀ scopes r, setVarAux n v scopes = some r → getVar r n = v := by
  intro scopes
  induction scopes with
  | nil => intro r h; simp [setVarAux] at h
  | cons sc rest ih =>
    intro r h
    simp only [setVarAux] at h
    split at h
    · cases h; simp [getVar, scopeLookup_scopeInsert_self]
    · rename_i hcont
      cases hr : setVarAux n v rest with
      | none => rw [hr] at h; simp at h
      | some r2 =>
        rw [hr] at h; simp at h; subst h
        have hnone : scopeLookup n sc = none := by
          cases hv : scopeLookup n sc with
          | none => rfl
          | some w => rw [hv] at hcont; simp at hcont
        simp [getVar, hnone, ih r2 hr]

/-- `set_var` followed by `get_var` on the same name yields the written value
(on a nonempty scope stack, the invariant of the interpreter). -/
theorem getVar_setVar (scopes : List Scope) (n : String) (v : Value)
    (hne : scopes ≠ []) : getVar (setVar scopes n v) n = v := by
  unfold setVar
  cases hr : setVarAux n v scopes with
  | some r => exact getVar_setVarAux n v scopes r hr
  | none =>
    cases scopes with
    | nil => exact absurd rfl hne
    | cons sc rest => simp [getVar, scopeLookup_scopeInsert_self]

theorem defineInTop_length (scopes : List Scope) (n : String) (v : Value) :
    (defineInTop scopes n v).length = scopes.length := by
  cases scopes <;> simp [defineInTop]

theorem runInputVars_scopes_length :
    ∀ (vars : List String) (s : InterpState),
      (runInputVars s vars).scopes.length = s.scopes.length := by
  intro vars
  induction vars with
  | nil => intro s; rfl
  | cons v rest ih =>
    intro s
    simp only [runInputVars]
    rw [ih]
    simp [setVar_length]

/-! ## The scope-depth invariant

Every evaluation step leaves the scope-stack depth unchanged: pushes and pops
of `call_function` are balanced, and all other statements only rewrite
bindings inside existing scopes. -/

theorem scopesInvAll : ∀ fuel : Nat,
    (∀ s e r, evalExpr fuel s e = some r → r.1.scopes.length = s.scopes.length) ∧
    (∀ s es r, evalExprs fuel s es = some r → r.1.scopes.length = s.scopes.length) ∧
    (∀ s st r, execStmt fuel s st = some r → r.1.scopes.length = s.scopes.length) ∧
    (∀ s b r, runBlock fuel s b = some r → r.1.scopes.length = s.scopes.length) ∧
    (∀ s el eb r, runElifs fuel s el eb = some r → r.1.scopes.length = s.scopes.length) ∧
    (∀ s v its b r, forLoop fuel s v its b = some r → r.1.scopes.length = s.scopes.length) ∧
    (∀ s n as m r, callFunction fuel s n as m = some r →
      r.1.scopes.length = s.scopes.length) := by
  intro fuel
  induction fuel with
  | zero =>
    refine ⟨?_, ?_, ?_, ?_, ?_, ?_, ?_⟩ <;> intros <;>
      simp_all [evalExpr, evalExprs, execStmt, runBlock, runElifs, forLoop,
        callFunction]
  | succ n ih =>
    obtain ⟨ihE, ihEs, ihS, ihB, ihElif, ihFor, ihC⟩ := ih
    refine ⟨?_, ?_, ?_, ?_, ?_, ?_, ?_⟩
    · -- evalExpr
      intro s e r h
      cases e with
      | num v => cases h; rfl
      | text t => cases h; rfl
      | bool b => cases h; rfl
      | var nm => cases h; rfl
      | list items =>
        simp only [evalExpr] at h
        cases hs : evalExprs n s items with
        | none => simp only [hs] at h; exact absurd h (by simp)
        | some p =>
          obtain ⟨s₁, vals⟩ := p
          simp only [hs] at h; cases h
          exact ihEs _ _ _ hs
      | index le ie =>
        simp only [evalExpr] at h
        cases h₁ : evalExpr n s le with
        | none => simp only [h₁] at h; exact absurd h (by simp)
        | some p =>
          obtain ⟨s₁, lv⟩ := p
          simp only [h₁] at h
          cases h₂ : evalExpr n s₁ ie with
          | none => simp only [h₂] at h; exact absurd h (by simp)
          | some p2 =>
            obtain ⟨s₂, iv⟩ := p2
            simp only [h₂] at h
            have hlen : s₂.scopes.length = s.scopes.length := by
              rw [ihE _ _ _ h₂, ihE _ _ _ h₁]
            split at h <;> (cases h; exact hlen)
      | binaryOp l op rr =>
        simp only [evalExpr] at h
        cases h₁ : evalExpr n s l with
        | none => simp only [h₁] at h; exact absurd h (by simp)
        | some p =>
          obtain ⟨s₁, lv⟩ := p
          simp only [h₁] at h
          cases h₂ : evalExpr n s₁ rr with
          | none => simp only [h₂] at h; exact absurd h (by simp)
          | some p2 =>
            obtain ⟨s₂, rv⟩ := p2
            simp only [h₂] at h; cases h
            rw [ihE _ _ _ h₂, ihE _ _ _ h₁]
      | functionCall nm args mutates =>
        simp only [evalExpr] at h
        cases h₁ : evalExprs n s args with
        | none => simp only [h₁] at h; exact absurd h (by simp)
        | some p =>
          obtain ⟨s₁, vals⟩ := p
          simp only [h₁] at h
          cases h₂ : callFunction n s₁ nm vals mutates with
          | none => simp only [h₂] at h; exact absurd h (by simp)
          | some p2 =>
            obtain ⟨s₂, result⟩ := p2
            simp only [h₂] at h
            have hlen : s₂.scopes.length = s.scopes.length := by
              rw [ihC _ _ _ _ _ h₂, ihEs _ _ _ h₁]
            split at h
            · split at h <;> (cases h; simp [setVar_length, hlen])
            · cases h; exact hlen
      | inputExpr => cases h; rfl
    · -- evalExprs
      intro s es r h
      cases es with
      | nil => cases h; rfl
      | cons e rest =>
        simp only [evalExprs] at h
        cases h₁ : evalExpr n s e with
        | none => simp only [h₁] at h; exact absurd h (by simp)
        | some p =>
          obtain ⟨s₁, v⟩ := p
          simp only [h₁] at h
          cases h₂ : evalExprs n s₁ rest with
          | none => simp only [h₂] at h; exact absurd h (by simp)
          | some p2 =>
            obtain ⟨s₂, vs⟩ := p2
            simp only [h₂] at h; cases h
            rw [ihEs _ _ _ h₂, ihE _ _ _ h₁]
    · -- execStmt
      intro s st r h
      cases st with
      | print e =>
        simp only [execStmt] at h
        cases h₁ : evalExpr n s e with
        | none => simp only [h₁] at h; exact absurd h (by simp)
        | some p =>
          obtain ⟨s₁, v⟩ := p
          simp only [h₁] at h
          split at h <;> (cases h; exact ihE _ _ _ h₁)
      | assign nm e =>
        simp only [execStmt] at h
        cases h₁ : evalExpr n s e with
        | none => simp only [h₁] at h; exact absurd h (by simp)
        | some p =>
          obtain ⟨s₁, v⟩ := p
          simp only [h₁] at h; cases h
          simp [setVar_length, ihE _ _ _ h₁]
      | augAssign nm op e =>
        simp only [execStmt] at h
        split at h
        · cases h; rfl
        · cases h₁ : evalExpr n s e with
          | none => simp only [h₁] at h; exact absurd h (by simp)
          | some p =>
            obtain ⟨s₁, v⟩ := p
            simp only [h₁] at h; cases h
            simp [setVar_length, ihE _ _ _ h₁]
      | incDec nm op => cases h; simp [setVar_length]
      | ifS cond thenB elifs elseB =>
        simp only [execStmt] at h
        cases h₁ : evalExpr n s cond with
        | none => simp only [h₁] at h; exact absurd h (by simp)
        | some p =>
          obtain ⟨s₁, cv⟩ := p
          simp only [h₁] at h
          have hlen : s₁.scopes.length = s.scopes.length := ihE _ _ _ h₁
          split at h
          · rw [ihB _ _ _ h, hlen]
          · rw [ihElif _ _ _ _ h, hlen]
      | whileS cond body =>
        simp only [execStmt] at h
        cases h₁ : evalExpr n s cond with
        | none => simp only [h₁] at h; exact absurd h (by simp)
        | some p =>
          obtain ⟨s₁, cv⟩ := p
          simp only [h₁] at h
          have hlen : s₁.scopes.length = s.scopes.length := ihE _ _ _ h₁
          split at h
          · cases h₂ : runBlock n s₁ body with
            | none => simp only [h₂] at h; exact absurd h (by simp)
            | some p2 =>
              obtain ⟨s₂, pending⟩ := p2
              simp only [h₂] at h
              have hlen2 : s₂.scopes.length = s.scopes.length := by
                rw [ihB _ _ _ h₂, hlen]
              cases pending with
              | some v => cases h; exact hlen2
              | none => rw [ihS _ _ _ h, hlen2]
          · cases h; exact hlen
      | forS v e body =>
        simp only [execStmt] at h
        cases h₁ : evalExpr n s e with
        | none => simp only [h₁] at h; exact absurd h (by simp)
        | some p =>
          obtain ⟨s₁, val⟩ := p
          simp only [h₁] at h
          have hlen : s₁.scopes.length = s.scopes.length := ihE _ _ _ h₁
          split at h
          · rw [ihFor _ _ _ _ _ h, hlen]
          · cases h; exact hlen
      | functionDef nm params body => cases h; simp [defineInTop_length]
      | quickFunctionDef nm params e => cases h; simp [defineInTop_length]
      | functionCall nm args mutates =>
        simp only [execStmt] at h
        cases h₁ : evalExprs n s args with
        | none => simp only [h₁] at h; exact absurd h (by simp)
        | some p =>
          obtain ⟨s₁, vals⟩ := p
          simp only [h₁] at h
          cases h₂ : callFunction n s₁ nm vals mutates with
          | none => simp only [h₂] at h; exact absurd h (by simp)
          | some p2 =>
            obtain ⟨s₂, result⟩ := p2
            simp only [h₂] at h
            have hlen : s₂.scopes.length = s.scopes.length := by
              rw [ihC _ _ _ _ _ h₂, ihEs _ _ _ h₁]
            split at h
            · split at h <;> (cases h; simp [setVar_length, hlen])
            · cases h; exact hlen
      | input vars prompt isIter => cases h; simp [runInputVars_scopes_length]
      | ret e =>
        simp only [execStmt] at h
        cases h₁ : evalExpr n s e with
        | none => simp only [h₁] at h; exact absurd h (by simp)
        | some p =>
          obtain ⟨s₁, v⟩ := p
          simp only [h₁] at h; cases h
          exact ihE _ _ _ h₁
    · -- runBlock
      intro s b r h
      cases b with
      | nil => cases h; rfl
      | cons st rest =>
        simp only [runBlock] at h
        cases h₁ : execStmt n s st with
        | none => simp only [h₁] at h; exact absurd h (by simp)
        | some p =>
          obtain ⟨s₁, pending⟩ := p
          simp only [h₁] at h
          have hlen : s₁.scopes.length = s.scopes.length := ihS _ _ _ h₁
          cases pending with
          | some v => cases h; exact hlen
          | none => rw [ihB _ _ _ h, hlen]
    · -- runElifs
      intro s el eb r h
      cases el with
      | nil =>
        simp only [runElifs] at h
        rw [ihB _ _ _ h]
      | cons ce rest =>
        obtain ⟨c, bdy⟩ := ce
        simp only [runElifs] at h
        cases h₁ : evalExpr n s c with
        | none => simp only [h₁] at h; exact absurd h (by simp)
        | some p =>
          obtain ⟨s₁, cv⟩ := p
          simp only [h₁] at h
          have hlen : s₁.scopes.length = s.scopes.length := ihE _ _ _ h₁
          split at h
          · rw [ihB _ _ _ h, hlen]
          · rw [ihElif _ _ _ _ h, hlen]
    · -- forLoop
      intro s v its b r h
      cases its with
      | nil => cases h; rfl
      | cons item rest =>
        simp only [forLoop] at h
        cases h₁ : runBlock n { s with scopes := setVar s.scopes v item } b with
        | none => simp only [h₁] at h; exact absurd h (by simp)
        | some p =>
          obtain ⟨s₂, pending⟩ := p
          simp only [h₁] at h
          have hlen : s₂.scopes.length = s.scopes.length := by
            rw [ihB _ _ _ h₁]; simp [setVar_length]
          cases pending with
          | some rv => cases h; exact hlen
          | none => rw [ihFor _ _ _ _ _ h, hlen]
    · -- callFunction
      intro s nm as m r h
      simp only [callFunction] at h
      split at h
      · split at h <;> (cases h; rfl)
      · cases hb : callBuiltin nm as with
        | some v => simp only [hb] at h; cases h; rfl
        | none =>
          simp only [hb] at h
          split at h
          · rename_i params body heq
            cases h₂ : runBlock n
                { s with scopes := bindParams params as :: s.scopes } body with
            | none => simp only [h₂] at h; exact absurd h (by simp)
            | some p =>
              obtain ⟨s₂, pending⟩ := p
              simp only [h₂] at h; cases h
              have hlen : s₂.scopes.length = s.scopes.length + 1 := by
                rw [ihB _ _ _ h₂]; rfl
              simp [hlen]
          · cases h; rfl

theorem evalExpr_scopes_len {fuel : Nat} {s : InterpState} {e : Expr}
    {r : InterpState × Value} (h : evalExpr fuel s e = some r) :
    r.1.scopes.length = s.scopes.length := (scopesInvAll fuel).1 _ _ _ h

theorem evalExprs_scopes_len {fuel : Nat} {s : InterpState} {es : List Expr}
    {r : InterpState × List Value} (h : evalExprs fuel s es = some r) :
    r.1.scopes.length = s.scopes.length := (scopesInvAll fuel).2.1 _ _ _ h

theorem execStmt_scopes_len {fuel : Nat} {s : InterpState} {st : Statement}
    {r : InterpState × Option Value} (h : execStmt fuel s st = some r) :
    r.1.scopes.length = s.scopes.length := (scopesInvAll fuel).2.2.1 _ _ _ h

theorem runBlock_scopes_len {fuel : Nat} {s : InterpState} {b : List Statement}
    {r : InterpState × Option Value} (h : runBlock fuel s b = some r) :
    r.1.scopes.length = s.scopes.length := (scopesInvAll fuel).2.2.2.1 _ _ _ h

theorem callFunction_scopes_len {fuel : Nat} {s : InterpState} {nm : String}
    {as : List Value} {m : Bool} {r : InterpState × Value}
    (h : callFunction fuel s nm as m = some r) :
    r.1.scopes.length = s.scopes.length := (scopesInvAll fuel).2.2.2.2.2.2 _ _ _ _ _ h

/-! ## Further helper lemmas -/

theorem augAssign_noop (fuel : Nat) (s : InterpState) (name op : String) (e : Expr)
    (h : getVar s.scopes name = Value.nothing) :
    execStmt (fuel + 1) s (.augAssign name op e) = some (s, none) := by
  simp [execStmt, h, isNothing]

theorem getVar_eq_nothing_of_unbound (n : String) :
    ∀ scopes : List Scope, (∀ scp ∈ scopes, scopeLookup n scp = none) →
      getVar scopes n = .nothing := by
  intro scopes
  induction scopes with
  | nil => intro _; rfl
  | cons sc rest ih =>
    intro h
    have h0 : scopeLookup n sc = none := h sc (by simp)
    simp only [getVar, h0]
    exact ih (fun scp hm => h scp (by simp [hm]))

theorem setVarAux_eq_none_of_unbound (n : String) (v : Value) :
    ∀ scopes : List Scope, (∀ scp ∈ scopes, scopeLookup n scp = none) →
      setVarAux n v scopes = none := by
  intro scopes
  induction scopes with
  | nil => intro _; rfl
  | cons sc rest ih =>
    intro h
    have h0 : scopeLookup n sc = none := h sc (by simp)
    simp only [setVarAux, h0, Option.isSome_none, Bool.false_eq_true, if_false,
      ih (fun scp hm => h scp (by simp [hm]))]
    rfl

theorem scopes_ne_nil_of_len {s₁ s₂ : InterpState}
    (hlen : s₁.scopes.length = s₂.scopes.length) (h : s₂.scopes ≠ []) :
    s₁.scopes ≠ [] := by
  intro hnil
  rw [hnil] at hlen
  exact h (List.length_eq_zero.mp hlen.symm)

/-! ## The claims -/

/-- C7: an AugAssign whose name resolves to Nothing is a silent no-op — the
state (scopes, output, RNG, pending input) is returned unchanged and no value
is returned, the right-hand side never being evaluated — while a plain Assign
in the same situation evaluates the right-hand side and scope-sets the
name. -/
theorem c7_augAssign_missing_noop (fuel : Nat) (s : InterpState)
    (name op : String) (e : Expr)
    (h : getVar s.scopes name = Value.nothing) :
    execStmt (fuel + 1) s (.augAssign name op e) = some (s, none) ∧
    (∀ (v : Value) (s₁ : InterpState), evalExpr fuel s e = some (s₁, v) →
      execStmt (fuel + 1) s (.assign name e) =
        some ({ s₁ with scopes := setVar s₁.scopes name v }, none)) := by
  refine ⟨augAssign_noop fuel s name op e h, ?_⟩
  intro v s₁ he
  simp [execStmt, he]

theorem c7_augAssign_missing_noop_witness :
    getVar (InterpState.mk [[]] 0 [] []).scopes "x" = Value.nothing ∧
    execStmt 3 (InterpState.mk [[]] 0 [] []) (.augAssign "x" "+" (.num 1)) =
      some (InterpState.mk [[]] 0 [] [], none) ∧
    execStmt 3 (InterpState.mk [[]] 0 [] []) (.assign "x" (.num 1)) =
      some (InterpState.mk [[("x", Value.number 1)]] 0 [] [], none) := by
  refine ⟨rfl, ?_, ?_⟩
  · exact (c7_augAssign_missing_noop 2 (InterpState.mk [[]] 0 [] []) "x" "+" (.num 1) rfl).1
  · exact (c7_augAssign_missing_noop 2 (InterpState.mk [[]] 0 [] []) "x" "+" (.num 1) rfl).2
      (Value.number 1) (InterpState.mk [[]] 0 [] []) rfl

/-- C10: `name++` / `name--` on a name bound in no scope evaluates
`Nothing ± 1` (which is Nothing) and scope-sets unconditionally, creating a
binding of the name to Nothing in the innermost scope — whereas AugAssign in
the same situation leaves the state untouched. -/
theorem c10_incDec_unbound_binds_nothing (fuel : Nat) (s : InterpState)
    (name op : String) (sc : Scope) (t : List Scope)
    (hscopes : s.scopes = sc :: t)
    (hunbound : ∀ scp ∈ s.scopes, scopeLookup name scp = none)
    (hop : op = "++" ∨ op = "--") :
    execStmt (fuel + 1) s (.incDec name op) =
      some ({ s with scopes := scopeInsert name .nothing sc :: t }, none) ∧
    scopeLookup name (scopeInsert name .nothing sc) = some .nothing ∧
    (∀ (aop : String) (e : Expr),
      execStmt (fuel + 1) s (.augAssign name aop e) = some (s, none)) := by
  have hget : getVar s.scopes name = .nothing :=
    getVar_eq_nothing_of_unbound name s.scopes hunbound
  have hset : setVar s.scopes name .nothing = scopeInsert name .nothing sc :: t := by
    rw [hscopes]
    unfold setVar
    rw [setVarAux_eq_none_of_unbound name .nothing (sc :: t) (hscopes ▸ hunbound)]
  refine ⟨?_, scopeLookup_scopeInsert_self name .nothing sc, ?_⟩
  · rcases hop with rfl | rfl <;>
      simp [execStmt, hget, applyOp, hset]
  · intro aop e
    exact augAssign_noop fuel s name aop e hget

theorem c10_incDec_unbound_binds_nothing_witness :
    (InterpState.mk [[("a", Value.number 2)], []] 7 [] []).scopes =
      [("a", Value.number 2)] :: [[]] ∧
    (∀ scp ∈ (InterpState.mk [[("a", Value.number 2)], []] 7 [] []).scopes,
      scopeLookup "z" scp = none) ∧
    ("++" = "++" ∨ "++" = "--") ∧
    (execStmt 4 (InterpState.mk [[("a", Value.number 2)], []] 7 [] []) (.incDec "z" "++") =
      some (InterpState.mk [[("a", Value.number 2), ("z", Value.nothing)], []] 7 [] [], none) ∧
     scopeLookup "z" (scopeInsert "z" .nothing [("a", Value.number 2)]) = some .nothing ∧
     (∀ (aop : String) (e : Expr),
       execStmt 4 (InterpState.mk [[("a", Value.number 2)], []] 7 [] [])
         (.augAssign "z" aop e) =
           some (InterpState.mk [[("a", Value.number 2)], []] 7 [] [], none))) := by
  refine ⟨rfl, ?_, Or.inl rfl, ?_⟩
  · intro scp hm
    simp only [List.mem_cons, List.mem_singleton] at hm
    rcases hm with rfl | rfl | h
    · rfl
    · rfl
    · simp at h
  · exact c10_incDec_unbound_binds_nothing 3
      (InterpState.mk [[("a", Value.number 2)], []] 7 [] []) "z" "++"
      [("a", Value.number 2)] [[]] rfl
      (by intro scp hm
          simp only [List.mem_cons, List.mem_singleton] at hm
          rcases hm with rfl | rfl | h
          · rfl
          · rfl
          · simp at h)
      (Or.inl rfl)

/-- C2: a mutating call (`name(x ...)*`), as a statement or as an expression,
writes the call result back through the first argument when that argument is
a `Variable`, so the variable afterwards resolves to the call's return value;
when the first argument expression is not a Variable, the mutation step
writes nothing (the state is exactly the post-call state). -/
theorem c2_mutation_through_call :
    (∀ (fuel : Nat) (s : InterpState) (name x : String) (restArgs : List Expr)
        (vals : List Value) (s₁ s₂ : InterpState) (r : Value),
      s.scopes ≠ [] →
      evalExprs fuel s (.var x :: restArgs) = some (s₁, vals) →
      callFunction fuel s₁ name vals true = some (s₂, r) →
      execStmt (fuel + 1) s (.functionCall name (.var x :: restArgs) true) =
        some ({ s₂ with scopes := setVar s₂.scopes x r }, none) ∧
      getVar (setVar s₂.scopes x r) x = r) ∧
    (∀ (fuel : Nat) (s : InterpState) (name : String) (args : List Expr)
        (vals : List Value) (s₁ s₂ : InterpState) (r : Value),
      firstIsVar args = false →
      evalExprs fuel s args = some (s₁, vals) →
      callFunction fuel s₁ name vals true = some (s₂, r) →
      execStmt (fuel + 1) s (.functionCall name args true) = some (s₂, none)) ∧
    (∀ (fuel : Nat) (s : InterpState) (name x : String) (restArgs : List Expr)
        (vals : List Value) (s₁ s₂ : InterpState) (r : Value),
      s.scopes ≠ [] →
      evalExprs fuel s (.var x :: restArgs) = some (s₁, vals) →
      callFunction fuel s₁ name vals true = some (s₂, r) →
      evalExpr (fuel + 1) s (.functionCall name (.var x :: restArgs) true) =
        some ({ s₂ with scopes := setVar s₂.scopes x r }, r) ∧
      getVar (setVar s₂.scopes x r) x = r) ∧
    (∀ (fuel : Nat) (s : InterpState) (name : String) (args : List Expr)
        (vals : List Value) (s₁ s₂ : InterpState) (r : Value),
      firstIsVar args = false →
      evalExprs fuel s args = some (s₁, vals) →
      callFunction fuel s₁ name vals true = some (s₂, r) →
      evalExpr (fuel + 1) s (.functionCall name args true) = some (s₂, r)) := by
  have hne : ∀ {fuel : Nat} {s s₁ s₂ : InterpState} {args vals r} {name : String},
      s.scopes ≠ [] →
      evalExprs fuel s args = some (s₁, vals) →
      callFunction fuel s₁ name vals true = some (s₂, r) →
      s₂.scopes ≠ [] := by
    intro fuel s s₁ s₂ args vals r name h he hc
    refine scopes_ne_nil_of_len ?_ h
    rw [callFunction_scopes_len hc, evalExprs_scopes_len he]
  refine ⟨?_, ?_, ?_, ?_⟩
  · intro fuel s name x restArgs vals s₁ s₂ r h he hc
    refine ⟨?_, getVar_setVar s₂.scopes x r (hne h he hc)⟩
    simp [execStmt, he, hc]
  · intro fuel s name args vals s₁ s₂ r hvar he hc
    simp only [execStmt, he, hc]
    rw [if_pos trivial]
    split
    · simp [firstIsVar] at hvar
    · rfl
  · intro fuel s name x restArgs vals s₁ s₂ r h he hc
    refine ⟨?_, getVar_setVar s₂.scopes x r (hne h he hc)⟩
    simp [evalExpr, he, hc]
  · intro fuel s name args vals s₁ s₂ r hvar he hc
    simp only [evalExpr, he, hc]
    rw [if_pos trivial]
    split
    · simp [firstIsVar] at hvar
    · rfl

theorem c2_mutation_through_call_witness :
    ((InterpState.mk [[("xs", Value.list [Value.number 3, Value.number 1])]] 0 [] []).scopes ≠ [] ∧
     evalExprs 3 (InterpState.mk [[("xs", Value.list [Value.number 3, Value.number 1])]] 0 [] [])
       [Expr.var "xs"] =
       some (InterpState.mk [[("xs", Value.list [Value.number 3, Value.number 1])]] 0 [] [],
         [Value.list [Value.number 3, Value.number 1]]) ∧
     callFunction 3 (InterpState.mk [[("xs", Value.list [Value.number 3, Value.number 1])]] 0 [] [])
       "<>" [Value.list [Value.number 3, Value.number 1]] true =
       some (InterpState.mk [[("xs", Value.list [Value.number 3, Value.number 1])]] 0 [] [],
         Value.list [Value.number 1, Value.number 3]) ∧
     execStmt 4 (InterpState.mk [[("xs", Value.list [Value.number 3, Value.number 1])]] 0 [] [])
       (.functionCall "<>" [Expr.var "xs"] true) =
       some (InterpState.mk [[("xs", Value.list [Value.number 1, Value.number 3])]] 0 [] [], none) ∧
     getVar [[("xs", Value.list [Value.number 1, Value.number 3])]] "xs" =
       Value.list [Value.number 1, Value.number 3]) ∧
    (firstIsVar [Expr.num 5] = false ∧
     execStmt 4 (InterpState.mk [[]] 0 [] []) (.functionCall "<>" [Expr.num 5] true) =
       some (InterpState.mk [[]] 0 [] [], none)) := by
  constructor
  · refine ⟨by simp, rfl, rfl, ?_, ?_⟩
    · exact ((c2_mutation_through_call.1 3
        (InterpState.mk [[("xs", Value.list [Value.number 3, Value.number 1])]] 0 [] [])
        "<>" "xs" [] [Value.list [Value.number 3, Value.number 1]]
        (InterpState.mk [[("xs", Value.list [Value.number 3, Value.number 1])]] 0 [] [])
        (InterpState.mk [[("xs", Value.list [Value.number 3, Value.number 1])]] 0 [] [])
        (Value.list [Value.number 1, Value.number 3])
        (by simp) rfl rfl).1)
    · exact rfl
  · refine ⟨rfl, ?_⟩
    exact c2_mutation_through_call.2.1 3 (InterpState.mk [[]] 0 [] [])
      "<>" [Expr.num 5] [Value.number 5]
      (InterpState.mk [[]] 0 [] []) (InterpState.mk [[]] 0 [] [])
      Value.nothing rfl rfl rfl

/-- The built-ins are dispatched by name only; a non-built-in name always
falls through to user-function lookup. -/
theorem callBuiltin_eq_none (name : String) (args : List Value)
    (h : isBuiltinName name = false) : callBuiltin name args = none := by
  unfold callBuiltin
  split <;> first
    | rfl
    | (exfalso; revert h; simp [isBuiltinName, builtinNames])

theorem ne_random_of_not_builtin {name : String}
    (h : isBuiltinName name = false) : ¬ name = "?=" := by
  intro hn
  subst hn
  simp [isBuiltinName, builtinNames] at h

/-- C3: invoking a user-defined Function pushes exactly one fresh scope
holding only the parameter bindings, runs the body there, and pops it before
the result is produced; the scope-stack depth after the call equals the depth
before. -/
theorem c3_call_scope_discipline (fuel : Nat) (s : InterpState) (name : String)
    (params : List String) (body : List Statement) (args : List Value)
    (m : Bool) (s' : InterpState) (r : Value)
    (hname : isBuiltinName name = false)
    (hfn : getVar s.scopes name = .function params body)
    (h : callFunction (fuel + 1) s name args m = some (s', r)) :
    s'.scopes.length = s.scopes.length ∧
    ∃ (s₂ : InterpState) (pending : Option Value),
      runBlock fuel { s with scopes := bindParams params args :: s.scopes } body =
        some (s₂, pending) ∧
      r = pending.getD .nothing ∧
      s' = { s₂ with scopes := s₂.scopes.drop 1 } := by
  have hq : ¬ name = "?=" := ne_random_of_not_builtin hname
  simp only [callFunction, hq, if_false, callBuiltin_eq_none name args hname, hfn] at h
  cases h₂ : runBlock fuel { s with scopes := bindParams params args :: s.scopes } body with
  | none => rw [h₂] at h; exact absurd h (by simp)
  | some p =>
    obtain ⟨s₂, pending⟩ := p
    rw [h₂] at h
    simp only [Option.some.injEq] at h
    obtain ⟨hs', hr⟩ := Prod.mk.injEq .. ▸ h
    refine ⟨?_, s₂, pending, rfl, ?_, ?_⟩
    · have hlen : s₂.scopes.length = s.scopes.length + 1 := by
        rw [runBlock_scopes_len h₂]; rfl
      rw [← hs']
      simp [hlen]
    · exact hr.symm
    · exact hs'.symm

theorem c3_call_scope_discipline_witness :
    isBuiltinName "idf" = false ∧
    getVar [[("idf", Value.function ["x"] [.ret (.var "x")])]] "idf" =
      .function ["x"] [.ret (.var "x")] ∧
    callFunction 5
      (InterpState.mk [[("idf", Value.function ["x"] [.ret (.var "x")])]] 0 [] [])
      "idf" [Value.number 7] false =
      some (InterpState.mk [[("idf", Value.function ["x"] [.ret (.var "x")])]] 0 [] [],
        Value.number 7) ∧
    ((InterpState.mk [[("idf", Value.function ["x"] [.ret (.var "x")])]] 0 [] []).scopes.length =
      (InterpState.mk [[("idf", Value.function ["x"] [.ret (.var "x")])]] 0 [] []).scopes.length ∧
     ∃ (s₂ : InterpState) (pending : Option Value),
       runBlock 4
         { InterpState.mk [[("idf", Value.function ["x"] [.ret (.var "x")])]] 0 [] [] with
           scopes := bindParams ["x"] [Value.number 7] ::
             (InterpState.mk [[("idf", Value.function ["x"] [.ret (.var "x")])]] 0 [] []).scopes }
         [.ret (.var "x")] = some (s₂, pending) ∧
       Value.number 7 = pending.getD .nothing ∧
       (InterpState.mk [[("idf", Value.function ["x"] [.ret (.var "x")])]] 0 [] []) =
         { s₂ with scopes := s₂.scopes.drop 1 }) := by
  refine ⟨by decide, rfl, rfl, ?_⟩
  exact c3_call_scope_discipline 4
    (InterpState.mk [[("idf", Value.function ["x"] [.ret (.var "x")])]] 0 [] [])
    "idf" ["x"] [.ret (.var "x")] [Value.number 7] false
    (InterpState.mk [[("idf", Value.function ["x"] [.ret (.var "x")])]] 0 [] [])
    (Value.number 7) (by decide) rfl rfl

/-- C4: return propagation.  A statement producing a pending return makes the
enclosing block return it immediately, skipping the remaining statements; a
body producing a pending return aborts a While loop (no re-evaluation of the
condition, no further iteration), aborts a For loop (remaining items are not
iterated), and propagates out of an If arm — so the value travels up to the
enclosing function call. -/
theorem c4_return_propagation :
    (∀ (fuel : Nat) (s : InterpState) (st : Statement) (rest : List Statement)
        (s₁ : InterpState) (v : Value),
      execStmt fuel s st = some (s₁, some v) →
      runBlock (fuel + 1) s (st :: rest) = some (s₁, some v)) ∧
    (∀ (fuel : Nat) (s : InterpState) (cond : Expr) (body : List Statement)
        (s₁ : InterpState) (cv : Value) (s₂ : InterpState) (v : Value),
      evalExpr fuel s cond = some (s₁, cv) →
      isTrue cv = true →
      runBlock fuel s₁ body = some (s₂, some v) →
      execStmt (fuel + 1) s (.whileS cond body) = some (s₂, some v)) ∧
    (∀ (fuel : Nat) (s : InterpState) (x : String) (item : Value)
        (restItems : List Value) (body : List Statement)
        (s₂ : InterpState) (v : Value),
      runBlock fuel { s with scopes := setVar s.scopes x item } body =
        some (s₂, some v) →
      forLoop (fuel + 1) s x (item :: restItems) body = some (s₂, some v)) ∧
    (∀ (fuel : Nat) (s : InterpState) (cond : Expr) (thenB : List Statement)
        (elifs : List (Expr × List Statement)) (elseB : List Statement)
        (s₁ : InterpState) (cv : Value) (s₂ : InterpState) (v : Value),
      evalExpr fuel s cond = some (s₁, cv) →
      isTrue cv = true →
      runBlock fuel s₁ thenB = some (s₂, some v) →
      execStmt (fuel + 1) s (.ifS cond thenB elifs elseB) = some (s₂, some v)) := by
  refine ⟨?_, ?_, ?_, ?_⟩
  · intro fuel s st rest s₁ v h
    simp [runBlock, h]
  · intro fuel s cond body s₁ cv s₂ v hc ht hb
    simp [execStmt, hc, ht, hb]
  · intro fuel s x item restItems body s₂ v hb
    simp [forLoop, hb]
  · intro fuel s cond thenB elifs elseB s₁ cv s₂ v hc ht hb
    simp [execStmt, hc, ht, hb]

theorem c4_return_propagation_witness :
    (execStmt 3 (InterpState.mk [[]] 0 [] []) (.ret (.num 5)) =
      some (InterpState.mk [[]] 0 [] [], some (Value.number 5)) ∧
     runBlock 4 (InterpState.mk [[]] 0 [] [])
       [.ret (.num 5), .print (.text "after")] =
       some (InterpState.mk [[]] 0 [] [], some (Value.number 5))) ∧
    (evalExpr 4 (InterpState.mk [[]] 0 [] []) (.bool true) =
      some (InterpState.mk [[]] 0 [] [], Value.bool true) ∧
     isTrue (Value.bool true) = true ∧
     runBlock 4 (InterpState.mk [[]] 0 [] []) [.ret (.num 5)] =
       some (InterpState.mk [[]] 0 [] [], some (Value.number 5)) ∧
     execStmt 5 (InterpState.mk [[]] 0 [] [])
       (.whileS (.bool true) [.ret (.num 5)]) =
       some (InterpState.mk [[]] 0 [] [], some (Value.number 5))) ∧
    (runBlock 4 { InterpState.mk [[]] 0 [] [] with
        scopes := setVar (InterpState.mk [[]] 0 [] []).scopes "i" (Value.number 1) }
       [.ret (.var "i")] =
       some (InterpState.mk [[("i", Value.number 1)]] 0 [] [], some (Value.number 1)) ∧
     forLoop 5 (InterpState.mk [[]] 0 [] []) "i" [Value.number 1, Value.number 2]
       [.ret (.var "i")] =
       some (InterpState.mk [[("i", Value.number 1)]] 0 [] [], some (Value.number 1))) := by
  refine ⟨⟨rfl, ?_⟩, ⟨rfl, rfl, rfl, ?_⟩, ⟨rfl, ?_⟩⟩
  · exact c4_return_propagation.1 3 (InterpState.mk [[]] 0 [] [])
      (.ret (.num 5)) [.print (.text "after")] (InterpState.mk [[]] 0 [] [])
      (Value.number 5) rfl
  · exact c4_return_propagation.2.1 4 (InterpState.mk [[]] 0 [] [])
      (.bool true) [.ret (.num 5)] (InterpState.mk [[]] 0 [] [])
      (Value.bool true) (InterpState.mk [[]] 0 [] []) (Value.number 5) rfl rfl rfl
  · exact c4_return_propagation.2.2.1 4 (InterpState.mk [[]] 0 [] [])
      "i" (Value.number 1) [Value.number 2] [.ret (.var "i")]
      (InterpState.mk [[("i", Value.number 1)]] 0 [] []) (Value.number 1) rfl

/-- C9: index evaluation is total and supports negative wrap-around.  With the
indexed expression evaluating to `List items` (`items.length < 2^63`, the
bound Rust's `Vec` guarantees) and the index to `Number q` with truncated
integral part `i`: for `0 ≤ i < len` the element `items[i]` is returned, for
`-len ≤ i < 0` the element `items[len + i]`, for any `i` outside `[-len, len)`
Nothing — and when either operand has a different variant the result is
Nothing; in every case evaluation returns a value (never panics). -/
theorem c9_index_wraparound :
    (∀ (fuel : Nat) (s : InterpState) (le ie : Expr) (items : List Value)
        (q : Rat) (i : Int) (s₁ s₂ : InterpState),
      evalExpr fuel s le = some (s₁, .list items) →
      evalExpr fuel s₁ ie = some (s₂, .number q) →
      ratTrunc q = i →
      (items.length : Int) < 2 ^ 63 →
        ((0 ≤ i → i < (items.length : Int) →
          evalExpr (fuel + 1) s (.index le ie) =
            some (s₂, items.getD i.toNat .nothing)) ∧
         (-(items.length : Int) ≤ i → i < 0 →
          evalExpr (fuel + 1) s (.index le ie) =
            some (s₂, items.getD ((items.length : Int) + i).toNat .nothing)) ∧
         ((i < -(items.length : Int) ∨ (items.length : Int) ≤ i) →
          evalExpr (fuel + 1) s (.index le ie) = some (s₂, .nothing)))) ∧
    (∀ (fuel : Nat) (s : InterpState) (le ie : Expr) (lv iv : Value)
        (s₁ s₂ : InterpState),
      evalExpr fuel s le = some (s₁, lv) →
      evalExpr fuel s₁ ie = some (s₂, iv) →
      isListNumberPair lv iv = false →
      evalExpr (fuel + 1) s (.index le ie) = some (s₂, .nothing)) := by
  constructor
  · intro fuel s le ie items q i s₁ s₂ h₁ h₂ hi hlen
    simp only [evalExpr, h₁, h₂]
    refine ⟨?_, ?_, ?_⟩
    · intro hge hlt
      have hfa : f64AsI64 q = i := by
        simp only [f64AsI64, hi, i64Min, i64Max]
        rw [if_neg (by omega), if_neg (by omega)]
      rw [hfa, if_neg (show ¬ i < 0 by omega)]
      have hus : i64AsUsize i = i.toNat := by
        simp only [i64AsUsize]
        omega
      rw [hus, if_pos (by omega)]
    · intro hge hlt
      have hfa : f64AsI64 q = i := by
        simp only [f64AsI64, hi, i64Min, i64Max]
        rw [if_neg (by omega), if_neg (by omega)]
      rw [hfa, if_pos hlt]
      have hu1 : usizeAsI64 items.length = (items.length : Int) := by
        simp only [usizeAsI64]
        omega
      have hus : i64AsUsize ((items.length : Int) + i) =
          ((items.length : Int) + i).toNat := by
        simp only [i64AsUsize]
        omega
      rw [hu1, hus, if_pos (by omega)]
    · intro hout
      rcases hout with hneg | hpos
      · have hfa : f64AsI64 q < -(items.length : Int) ∧
            i64Min ≤ f64AsI64 q ∧ f64AsI64 q < 0 := by
          simp only [f64AsI64, hi, i64Min, i64Max]
          split
          · refine ⟨by omega, by omega, by omega⟩
          · split
            · omega
            · refine ⟨hneg, by omega, by omega⟩
        obtain ⟨ha, hb, hc⟩ := hfa
        rw [if_pos hc]
        have hu1 : usizeAsI64 items.length = (items.length : Int) := by
          simp only [usizeAsI64]
          omega
        rw [hu1]
        have : ¬ i64AsUsize ((items.length : Int) + f64AsI64 q) < items.length := by
          simp only [i64AsUsize, i64Min] at *
          omega
        rw [if_neg this]
      · have hfa : (items.length : Int) ≤ f64AsI64 q ∧ f64AsI64 q ≤ i64Max := by
          simp only [f64AsI64, hi, i64Min, i64Max]
          split
          · omega
          · split
            · refine ⟨by omega, by omega⟩
            · refine ⟨hpos, by omega⟩
        obtain ⟨ha, hb⟩ := hfa
        rw [if_neg (show ¬ f64AsI64 q < 0 by omega)]
        have : ¬ i64AsUsize (f64AsI64 q) < items.length := by
          simp only [i64AsUsize, i64Max] at *
          omega
        rw [if_neg this]
  · intro fuel s le ie lv iv s₁ s₂ h₁ h₂ hpair
    simp only [evalExpr, h₁, h₂]
    split
    · simp [isListNumberPair] at hpair
    · rfl

theorem c9_index_wraparound_witness :
    (evalExpr 5 (InterpState.mk [[]] 0 [] [])
       (.list [.num 10, .num 20, .num 30]) =
       some (InterpState.mk [[]] 0 [] [],
         .list [Value.number 10, Value.number 20, Value.number 30]) ∧
     evalExpr 5 (InterpState.mk [[]] 0 [] []) (.num (-1)) =
       some (InterpState.mk [[]] 0 [] [], .number (-1)) ∧
     ratTrunc (-1) = (-1 : Int) ∧
     (([Value.number 10, Value.number 20, Value.number 30].length : Int) < 2 ^ 63) ∧
     evalExpr 6 (InterpState.mk [[]] 0 [] [])
       (.index (.list [.num 10, .num 20, .num 30]) (.num (-1))) =
       some (InterpState.mk [[]] 0 [] [],
         [Value.number 10, Value.number 20, Value.number 30].getD
           ((([Value.number 10, Value.number 20, Value.number 30].length : Int)
             + (-1)).toNat) .nothing)) ∧
    (isListNumberPair (Value.number 10) (Value.number 3) = false ∧
     evalExpr 6 (InterpState.mk [[]] 0 [] []) (.index (.num 10) (.num 3)) =
       some (InterpState.mk [[]] 0 [] [], .nothing)) := by
  constructor
  · refine ⟨rfl, rfl, by decide, by decide, ?_⟩
    exact ((c9_index_wraparound.1 5 (InterpState.mk [[]] 0 [] [])
      (.list [.num 10, .num 20, .num 30]) (.num (-1))
      [Value.number 10, Value.number 20, Value.number 30] (-1) (-1)
      (InterpState.mk [[]] 0 [] []) (InterpState.mk [[]] 0 [] [])
      rfl rfl (by decide) (by decide)).2.1 (by decide) (by decide))
  · refine ⟨rfl, ?_⟩
    exact c9_index_wraparound.2 5 (InterpState.mk [[]] 0 [] [])
      (.num 10) (.num 3) (Value.number 10) (Value.number 3)
      (InterpState.mk [[]] 0 [] []) (InterpState.mk [[]] 0 [] []) rfl rfl rfl

/-- C1, counterexample to the claim as stated: `!` applied to a Number (a
wrong argument type) yields `Bool false`, not Nothing.  (Likewise `&`, `|`
and `#` have non-Nothing fallbacks, refuting "for every built-in".) -/
theorem c1_counterexample :
    callBuiltin "!" [Value.number 1] = some (Value.bool false) ∧
    Value.bool false ≠ Value.nothing ∧
    callBuiltin "&" [Value.number 1] = some (Value.text "") ∧
    callBuiltin "|" [Value.number 1] = some (Value.list []) ∧
    callBuiltin "#" [Value.bool true] = some (Value.number 0) :=
  ⟨rfl, fun h => Value.noConfusion h, rfl, rfl, rfl⟩

/-- C1 (amended): wrong built-in argument types never produce a diagnostic,
but the silent fallback is built-in specific rather than uniformly Nothing:
`^`, `v`, `<>`, `++`, `--`, `<<` fall back to Nothing; `#`, `~` and `?=` to
`Number 0`; `$` and `&` to empty Text; `|` to an empty List; `!` and `><` to
`Bool false`.  (`?=` does not even advance the RNG state.) -/
theorem c1_wrong_builtin_arg_fallbacks (args : List Value) :
    ((optIsList args[0]? && optIsText args[1]?) = false →
      callBuiltin "&" args = some (.text "")) ∧
    ((optIsText args[0]? && optIsText args[1]?) = false →
      callBuiltin "|" args = some (.list [])) ∧
    (optIsBool args[0]? = false → callBuiltin "!" args = some (.bool false)) ∧
    ((optIsList args[0]? || optIsText args[0]?) = false →
      callBuiltin "#" args = some (.number 0)) ∧
    ((optIsText args[0]? || optIsNumber args[0]?) = false →
      callBuiltin "~" args = some (.number 0)) ∧
    ((optIsList args[0]? && args[1]?.isSome) = false →
      callBuiltin "^" args = some .nothing) ∧
    (optIsList args[0]? = false →
      callBuiltin "v" args = some .nothing ∧
      callBuiltin "<>" args = some .nothing ∧
      callBuiltin "++" args = some .nothing ∧
      callBuiltin "--" args = some .nothing ∧
      callBuiltin "<<" args = some .nothing) ∧
    ((optIsList args[0]? && args[1]?.isSome) = false →
      callBuiltin "><" args = some (.bool false)) ∧
    (args[0]? = none → callBuiltin "$" args = some (.text "")) ∧
    (∀ (fuel : Nat) (s : InterpState) (m : Bool), optIsNumber args[0]? = false →
      callFunction (fuel + 1) s "?=" args m = some (s, .number 0)) := by
  refine ⟨?_, ?_, ?_, ?_, ?_, ?_, ?_, ?_, ?_, ?_⟩
  · intro h
    rw [show callBuiltin "&" args =
      some (match (args[0]? : Option Value), (args[1]? : Option Value) with
        | some (.list items), some (.text sep) =>
          Value.text (String.intercalate sep (items.map joinItemStr))
        | _, _ => .text "") from rfl]
    split
    · rename_i items sep heq₁ heq₂
      simp [optIsList, optIsText, heq₁, heq₂] at h
    · rfl
  · intro h
    rw [show callBuiltin "|" args =
      some (match (args[0]? : Option Value), (args[1]? : Option Value) with
        | some (.text s), some (.text sep) =>
          if sep = "" then Value.list []
          else Value.list ((s.splitOn sep).map .text)
        | _, _ => .list []) from rfl]
    split
    · rename_i s sep heq₁ heq₂
      simp [optIsText, heq₁, heq₂] at h
    · rfl
  · intro h
    rw [show callBuiltin "!" args =
      some (match (args[0]? : Option Value) with
        | some (.bool b) => Value.bool (!b)
        | _ => .bool false) from rfl]
    split
    · rename_i b heq
      simp [optIsBool, heq] at h
    · rfl
  · intro h
    rw [show callBuiltin "#" args =
      some (match (args[0]? : Option Value) with
        | some (.list i) => Value.number (i.length : Nat)
        | some (.text s) => Value.number (s.utf8ByteSize : Nat)
        | _ => .number 0) from rfl]
    split
    · rename_i i heq
      simp [optIsList, heq] at h
    · rename_i s heq
      simp [optIsText, heq] at h
    · rfl
  · intro h
    rw [show callBuiltin "~" args =
      some (match (args[0]? : Option Value) with
        | some (.text s) =>
          (match parseF64 s with
           | some q => Value.number q
           | none => Value.number 0)
        | some (.number n) => Value.number n
        | _ => .number 0) from rfl]
    split
    · rename_i s heq
      simp [optIsText, heq] at h
    · rename_i n heq
      simp [optIsNumber, heq] at h
    · rfl
  · intro h
    rw [show callBuiltin "^" args =
      some (match (args[0]? : Option Value), (args[1]? : Option Value) with
        | some (.list items), some v => Value.list (items ++ [v])
        | _, _ => .nothing) from rfl]
    split
    · rename_i items v heq₁ heq₂
      simp [optIsList, heq₁, heq₂] at h
    · rfl
  · intro h
    refine ⟨?_, ?_, ?_, ?_, ?_⟩
    · rw [show callBuiltin "v" args =
        some (match (args[0]? : Option Value) with
          | some (.list items) =>
            if items.isEmpty then Value.nothing else Value.list items.dropLast
          | _ => .nothing) from rfl]
      split
      · rename_i items heq
        simp [optIsList, heq] at h
      · rfl
    · rw [show callBuiltin "<>" args =
        some (match (args[0]? : Option Value) with
          | some (.list items) => Value.list items.reverse
          | _ => .nothing) from rfl]
      split
      · rename_i items heq
        simp [optIsList, heq] at h
      · rfl
    · rw [show callBuiltin "++" args =
        some (match (args[0]? : Option Value) with
          | some (.list items) => Value.list (sortByLe (cmpToLe valueCmpAsc) items)
          | _ => .nothing) from rfl]
      split
      · rename_i items heq
        simp [optIsList, heq] at h
      · rfl
    · rw [show callBuiltin "--" args =
        some (match (args[0]? : Option Value) with
          | some (.list items) => Value.list (sortByLe (cmpToLe valueCmpDesc) items)
          | _ => .nothing) from rfl]
      split
      · rename_i items heq
        simp [optIsList, heq] at h
      · rfl
    · rw [show callBuiltin "<<" args =
        some (match (args[0]? : Option Value) with
          | some (.list items) =>
            Value.list (items.foldl
              (fun u item => if u.any (fun w => beqValue w item) then u
                else u ++ [item]) [])
          | _ => .nothing) from rfl]
      split
      · rename_i items heq
        simp [optIsList, heq] at h
      · rfl
  · intro h
    rw [show callBuiltin "><" args =
      some (match (args[0]? : Option Value), (args[1]? : Option Value) with
        | some (.list items), some v =>
          Value.bool (items.any (fun item => beqValue item v))
        | _, _ => .bool false) from rfl]
    split
    · rename_i items v heq₁ heq₂
      simp [optIsList, heq₁, heq₂] at h
    · rfl
  · intro h
    rw [show callBuiltin "$" args =
      some (match (args[0]? : Option Value) with
        | some v => Value.text (toDisplay v)
        | none => .text "") from rfl]
    split
    · rename_i v heq
      simp [h] at heq
    · rfl
  · intro fuel s m h
    simp only [callFunction]
    rw [if_pos trivial]
    split
    · rename_i mx heq
      simp [optIsNumber, heq] at h
    · rfl

theorem c1_wrong_builtin_arg_fallbacks_witness :
    ((optIsList (([Value.number 1] : List Value))[0]? &&
        optIsText (([Value.number 1] : List Value))[1]?) = false ∧
      callBuiltin "&" [Value.number 1] = some (.text "")) ∧
    (optIsBool (([Value.number 1] : List Value))[0]? = false ∧
      callBuiltin "!" [Value.number 1] = some (.bool false)) ∧
    (optIsList (([Value.number 1] : List Value))[0]? = false ∧
      callBuiltin "v" [Value.number 1] = some .nothing) ∧
    (optIsNumber (([Value.text "a"] : List Value))[0]? = false ∧
      callFunction 4 (InterpState.mk [[]] 9 [] []) "?=" [Value.text "a"] false =
        some (InterpState.mk [[]] 9 [] [], .number 0)) := by
  refine ⟨⟨rfl, ?_⟩, ⟨rfl, ?_⟩, ⟨rfl, ?_⟩, ⟨rfl, ?_⟩⟩
  · exact (c1_wrong_builtin_arg_fallbacks [Value.number 1]).1 rfl
  · exact (c1_wrong_builtin_arg_fallbacks [Value.number 1]).2.2.1 rfl
  · exact ((c1_wrong_builtin_arg_fallbacks [Value.number 1]).2.2.2.2.2.2.1 rfl).1
  · exact (c1_wrong_builtin_arg_fallbacks [Value.text "a"]).2.2.2.2.2.2.2.2.2
      3 (InterpState.mk [[]] 9 [] []) false rfl

/-- C8, counterexample to the claim as stated: `v` on the empty List returns
Nothing, not the empty List (which is what "the list with its last element
removed" would be). -/
theorem c8_counterexample :
    callBuiltin "v" [Value.list []] = some Value.nothing ∧
    some Value.nothing ≠ some (Value.list ([] : List Value).dropLast) :=
  ⟨rfl, fun h => Value.noConfusion (Option.some.inj h)⟩

/-- C8 (amended): for every non-empty List `xs`, built-in `v` returns the
list with its last element removed; on the empty List it returns Nothing. -/
theorem c8_v_drops_last (xs : List Value) :
    (xs.isEmpty = false → callBuiltin "v" [Value.list xs] = some (.list xs.dropLast)) ∧
    (xs.isEmpty = true → callBuiltin "v" [Value.list xs] = some .nothing) := by
  constructor <;> intro h <;>
    rw [show callBuiltin "v" [Value.list xs] =
      some (if xs.isEmpty then Value.nothing else Value.list xs.dropLast) from rfl] <;>
    simp [h]

theorem c8_v_drops_last_witness :
    ([Value.number 1, Value.text "b"] : List Value).isEmpty = false ∧
    callBuiltin "v" [Value.list [Value.number 1, Value.text "b"]] =
      some (.list ([Value.number 1, Value.text "b"] : List Value).dropLast) ∧
    (([] : List Value).isEmpty = true ∧
     callBuiltin "v" [Value.list []] = some .nothing) := by
  refine ⟨rfl, ?_, rfl, ?_⟩
  · exact (c8_v_drops_last [Value.number 1, Value.text "b"]).1 rfl
  · exact (c8_v_drops_last []).2 rfl

/-! ## Decimal round-trip lemmas for C5 -/

theorem natDigitsAux_lt_ten :
    ∀ (fuel n : Nat), ∀ d ∈ natDigitsAux fuel n, d < 10 := by
  intro fuel
  induction fuel with
  | zero =>
    intro n d hd
    cases n <;> simp [natDigitsAux] at hd
  | succ f ih =>
    intro n d hd
    cases n with
    | zero => simp [natDigitsAux] at hd
    | succ m =>
      simp only [natDigitsAux, List.mem_cons] at hd
      rcases hd with rfl | hd
      · omega
      · exact ih _ d hd

theorem natDigitsAux_foldr :
    ∀ (fuel n : Nat), n ≤ fuel →
      (natDigitsAux fuel n).foldr (fun d acc => 10 * acc + d) 0 = n := by
  intro fuel
  induction fuel with
  | zero =>
    intro n hn
    interval_cases n
    rfl
  | succ f ih =>
    intro n hn
    cases n with
    | zero => rfl
    | succ m =>
      simp only [natDigitsAux, List.foldr_cons]
      rw [ih ((m + 1) / 10) (by omega)]
      omega

theorem digitVal_ofNat {d : Nat} (hd : d < 10) :
    digitVal (Char.ofNat (48 + d)) = d := by
  interval_cases d <;> decide

theorem isDigitChar_ofNat {d : Nat} (hd : d < 10) :
    isDigitChar (Char.ofNat (48 + d)) = true := by
  interval_cases d <;> decide

theorem natDecChars_all_digits (n : Nat) :
    ∀ c ∈ natDecChars n, isDigitChar c = true := by
  intro c hc
  unfold natDecChars at hc
  split at hc
  · simp only [List.mem_singleton] at hc
    subst hc
    decide
  · simp only [List.mem_reverse, List.mem_map] at hc
    obtain ⟨d, hd, rfl⟩ := hc
    exact isDigitChar_ofNat (natDigitsAux_lt_ten n n d hd)

theorem natDecChars_ne_nil (n : Nat) : natDecChars n ≠ [] := by
  unfold natDecChars
  split
  · simp
  · rename_i hn
    cases hm : natDigitsAux n n with
    | nil =>
      exfalso
      have := natDigitsAux_foldr n n (le_refl n)
      rw [hm] at this
      simp at this
      exact hn this.symm
    | cons d rest => simp [hm]

theorem natFromDigits_natDecChars (n : Nat) :
    natFromDigits (natDecChars n) = n := by
  unfold natDecChars
  split
  · rename_i hn
    subst hn
    decide
  · unfold natFromDigits
    rw [List.foldl_reverse]
    have hfold : ∀ L : List Nat, (∀ d ∈ L, d < 10) →
        (L.map (fun d => Char.ofNat (48 + d))).foldr
          (fun x y => 10 * y + digitVal x) 0 =
        L.foldr (fun d acc => 10 * acc + d) 0 := by
      intro L
      induction L with
      | nil => intro _; rfl
      | cons d rest ih =>
        intro hlt
        simp only [List.map_cons, List.foldr_cons]
        rw [ih (fun x hx => hlt x (by simp [hx])),
          digitVal_ofNat (hlt d (by simp))]
    rw [hfold _ (natDigitsAux_lt_ten n n), natDigitsAux_foldr n n (le_refl n)]

theorem parseF64Core_digits (cs : List Char) (hne : cs ≠ [])
    (hdig : ∀ c ∈ cs, isDigitChar c = true) :
    parseF64Core cs = some ((natFromDigits cs : Nat) : Rat) := by
  unfold parseF64Core
  rw [List.takeWhile_eq_self_iff.mpr hdig, List.dropWhile_eq_nil_iff.mpr hdig]
  simp [hne]

theorem parseF64_natToDecStr (n : Nat) :
    parseF64 (natToDecStr n) = roundF64 ((n : Nat) : Rat) := by
  have hdata : (natToDecStr n).data = natDecChars n := rfl
  unfold parseF64
  rw [hdata]
  have hcore : (parseF64Core (natDecChars n)).bind roundF64 =
      roundF64 ((n : Nat) : Rat) := by
    rw [parseF64Core_digits _ (natDecChars_ne_nil n) (natDecChars_all_digits n),
      natFromDigits_natDecChars]
    rfl
  cases hd : natDecChars n with
  | nil => exact absurd hd (natDecChars_ne_nil n)
  | cons c rest =>
    have hc : isDigitChar c = true := natDecChars_all_digits n c (by rw [hd]; simp)
    rw [hd] at hcore
    split
    · rename_i heq
      exact absurd heq (by simp)
    · rename_i t heq
      cases heq
      simp [isDigitChar] at hc
    · rename_i t heq
      cases heq
      simp [isDigitChar] at hc
    · exact hcore

theorem toDisplay_number (q : Rat) :
    toDisplay (Value.number q) =
      if q.den = 1 then intToDecStr (f64AsI64 q) else nonIntegralFmt q := by
  simp only [toDisplay]

/-- The display form of a non-negative integral Number within the `i64`
range is its plain decimal string. -/
theorem toDisplay_natCast (n : Nat) (h : (n : Int) ≤ i64Max) :
    toDisplay (Value.number (n : Rat)) = natToDecStr n := by
  have htr : ratTrunc ((n : Nat) : Rat) = (n : Int) := by
    simp [ratTrunc, Int.tdiv_one]
  have hfa : f64AsI64 ((n : Nat) : Rat) = (n : Int) := by
    simp only [f64AsI64, htr, i64Min]
    rw [if_neg (by omega), if_neg (by omega)]
  rw [toDisplay_number, if_pos (by simp), hfa]
  unfold intToDecStr
  rw [if_neg (by omega)]
  simp

/-- Above `i64::MAX` the display form saturates: `*n as i64` clamps to
`i64::MAX`. -/
theorem toDisplay_natCast_big (n : Nat) (h : i64Max < (n : Int)) :
    toDisplay (Value.number (n : Rat)) = natToDecStr 9223372036854775807 := by
  have htr : ratTrunc ((n : Nat) : Rat) = (n : Int) := by
    simp [ratTrunc, Int.tdiv_one]
  have hfa : f64AsI64 ((n : Nat) : Rat) = i64Max := by
    simp only [f64AsI64, htr, i64Min, i64Max] at *
    rw [if_neg (by omega), if_pos (by omega)]
  rw [toDisplay_number, if_pos (by simp), hfa]
  unfold intToDecStr
  rw [if_neg (by decide)]
  have hmax : i64Max.toNat = 9223372036854775807 := by decide
  rw [hmax]

/-! ## Correctness of the binary64 rounding on integral inputs -/

theorem natLog2Aux_spec :
    ∀ fuel n : Nat, 1 ≤ n → n ≤ fuel →
      2 ^ natLog2Aux fuel n ≤ n ∧ n < 2 ^ (natLog2Aux fuel n + 1) := by
  intro fuel
  induction fuel with
  | zero => intro n h1 h2; omega
  | succ f ih =>
    intro n h1 h2
    cases n with
    | zero => omega
    | succ m =>
      by_cases h2m : m + 1 ≥ 2
      · obtain ⟨hl, hr⟩ := ih ((m + 1) / 2) (by omega) (by omega)
        simp only [natLog2Aux, if_pos h2m]
        have e1 : 2 ^ (natLog2Aux f ((m + 1) / 2) + 1) =
            2 * 2 ^ natLog2Aux f ((m + 1) / 2) := by
          rw [pow_succ]; ring
        have e2 : 2 ^ (natLog2Aux f ((m + 1) / 2) + 1 + 1) =
            2 * 2 ^ (natLog2Aux f ((m + 1) / 2) + 1) := by
          rw [pow_succ _ (natLog2Aux f ((m + 1) / 2) + 1)]; ring
        omega
      · have hm0 : m = 0 := by omega
        subst hm0
        simp [natLog2Aux]

theorem natLog2_spec (n : Nat) (h : 1 ≤ n) :
    2 ^ natLog2 n ≤ n ∧ n < 2 ^ (natLog2 n + 1) :=
  natLog2Aux_spec n n h (le_refl n)

theorem ratFloorLog2_spec (q : Rat) (hq : 0 < q) :
    (2 : Rat) ^ ratFloorLog2 q ≤ q ∧ q < (2 : Rat) ^ (ratFloorLog2 q + 1) := by
  have hnum : 0 < q.num := Rat.num_pos.mpr hq
  have hden : 0 < q.den := q.den_pos
  obtain ⟨hA1, hA2⟩ := natLog2_spec q.num.toNat (by omega)
  obtain ⟨hB1, hB2⟩ := natLog2_spec q.den (by omega)
  set La := natLog2 q.num.toNat with hLa
  set Lb := natLog2 q.den with hLb
  have hdenQ : (0 : Rat) < (q.den : Rat) := by exact_mod_cast hden
  have hnum2 : ((q.num.toNat : Nat) : Rat) = (q.num : Rat) := by
    have : ((q.num.toNat : Nat) : Int) = q.num := Int.toNat_of_nonneg hnum.le
    exact_mod_cast congrArg (fun z : Int => (z : Rat)) this
  have hqd : q = (q.num : Rat) / (q.den : Rat) := (Rat.num_div_den q).symm
  have hup : q < (2 : Rat) ^ (La + 1) / (2 : Rat) ^ Lb := by
    rw [hqd]
    calc (q.num : Rat) / (q.den : Rat) ≤ (q.num : Rat) / (2 : Rat) ^ Lb := by
          refine div_le_div_of_nonneg_left ?_ (by positivity) ?_
          · rw [← hnum2]; positivity
          · exact_mod_cast hB1
      _ < (2 : Rat) ^ (La + 1) / (2 : Rat) ^ Lb := by
          refine (div_lt_div_iff_of_pos_right (by positivity)).mpr ?_
          rw [← hnum2]
          exact_mod_cast hA2
  have hlo : (2 : Rat) ^ La / (2 : Rat) ^ (Lb + 1) < q := by
    rw [hqd]
    calc (2 : Rat) ^ La / (2 : Rat) ^ (Lb + 1)
        < (2 : Rat) ^ La / (q.den : Rat) := by
          refine div_lt_div_of_pos_left (by positivity) hdenQ ?_
          exact_mod_cast hB2
      _ ≤ (q.num : Rat) / (q.den : Rat) := by
          refine (div_le_div_iff_of_pos_right hdenQ).mpr ?_
          rw [← hnum2]
          exact_mod_cast hA1
  have hzup : (2 : Rat) ^ (La + 1) / (2 : Rat) ^ Lb =
      (2 : Rat) ^ ((La : Int) - (Lb : Int) + 1) := by
    rw [← zpow_natCast (2 : Rat) (La + 1), ← zpow_natCast (2 : Rat) Lb,
      ← zpow_sub₀ (two_ne_zero)]
    congr 1
    push_cast
    ring
  have hzlo : (2 : Rat) ^ La / (2 : Rat) ^ (Lb + 1) =
      (2 : Rat) ^ ((La : Int) - (Lb : Int) - 1) := by
    rw [← zpow_natCast (2 : Rat) La, ← zpow_natCast (2 : Rat) (Lb + 1),
      ← zpow_sub₀ (two_ne_zero)]
    congr 1
    push_cast
    ring
  rw [hzup] at hup
  rw [hzlo] at hlo
  unfold ratFloorLog2
  rw [← hLa, ← hLb]
  by_cases hcase : q < (2 : Rat) ^ ((La : Int) - (Lb : Int))
  · rw [if_pos hcase]
    refine ⟨le_of_lt hlo, ?_⟩
    rw [show (La : Int) - (Lb : Int) - 1 + 1 = (La : Int) - (Lb : Int) by ring]
    exact hcase
  · rw [if_neg hcase]
    exact ⟨le_of_not_lt hcase, hup⟩

/-- `ratFloor` is the floor: the denominator is positive, so floor division
agrees with Euclidean division, which is `Rat.floor`. -/
theorem ratFloor_eq_floor (x : Rat) : ratFloor x = ⌊x⌋ := by
  rw [ratFloor, Int.fdiv_eq_ediv _ (by exact_mod_cast x.den_pos.le), Rat.floor_def]

theorem ratFloor_intCast (k : Int) : ratFloor ((k : Int) : Rat) = k := by
  rw [ratFloor_eq_floor, Int.floor_intCast]

theorem ratFloor_int_add_fract (k : Int) (r : Rat) (h0 : 0 ≤ r) (h1 : r < 1) :
    ratFloor ((k : Rat) + r) = k := by
  rw [ratFloor_eq_floor, Int.floor_int_add, Int.floor_eq_zero_iff.mpr ⟨h0, h1⟩,
    add_zero]

theorem roundHalfEven_intCast (k : Int) : roundHalfEven ((k : Int) : Rat) = k := by
  unfold roundHalfEven
  rw [ratFloor_intCast, sub_self]
  rw [if_pos (by norm_num)]

/-- Rounding an integer plus a fraction strictly above one half rounds
up. -/
theorem roundHalfEven_add_big (k : Int) (r : Rat) (h2 : 1 / 2 < r)
    (h1 : r < 1) : roundHalfEven ((k : Rat) + r) = k + 1 := by
  unfold roundHalfEven
  rw [ratFloor_int_add_fract k r (by linarith) h1]
  rw [show (k : Rat) + r - (k : Rat) = r by ring]
  rw [if_neg (by linarith), if_pos h2]

/-- Rounding to the nearest binary64 is the identity on a non-negative
integer that is itself a binary64 value (an integral `m * 2^k` with a 53-bit
significand) below `2^63`. -/
theorem roundF64_natCast_repr (n mm kk : Nat) (hmm : mm < 2 ^ 53)
    (hn : n = mm * 2 ^ kk) (hub : n < 2 ^ 63) :
    roundF64 ((n : Nat) : Rat) = some ((n : Nat) : Rat) := by
  by_cases h0 : n = 0
  · subst h0
    simp [roundF64]
  have hq : (0 : Rat) < (n : Rat) := by exact_mod_cast Nat.pos_of_ne_zero h0
  have habs : |((n : Nat) : Rat)| = ((n : Nat) : Rat) := abs_of_pos hq
  obtain ⟨ht1, ht2⟩ := ratFloorLog2_spec ((n : Nat) : Rat) hq
  set t := ratFloorLog2 ((n : Nat) : Rat) with hts
  have hn63 : ((n : Nat) : Rat) < (2 : Rat) ^ (63 : Int) := by
    calc ((n : Nat) : Rat) < ((2 ^ 63 : Nat) : Rat) := by exact_mod_cast hub
      _ = (2 : Rat) ^ (63 : Nat) := by
          rw [Nat.cast_pow]
          norm_num
      _ = (2 : Rat) ^ (63 : Int) := by
          rw [← zpow_natCast (2 : Rat) 63]
          norm_num
  have htlb : 0 ≤ t := by
    by_contra hlt
    push_neg at hlt
    have h1 : (2 : Rat) ^ (t + 1) ≤ (2 : Rat) ^ (0 : Int) :=
      zpow_le_zpow_right₀ one_le_two (by omega)
    have h2 : ((n : Nat) : Rat) < 1 := by
      have := lt_of_lt_of_le ht2 h1
      simpa using this
    have h3 : (1 : Rat) ≤ ((n : Nat) : Rat) := by
      exact_mod_cast Nat.one_le_iff_ne_zero.mpr h0
    linarith
  have htub : t ≤ 62 := by
    by_contra hgt
    push_neg at hgt
    have h63 : (2 : Rat) ^ (63 : Int) ≤ (2 : Rat) ^ t :=
      zpow_le_zpow_right₀ one_le_two (by omega)
    linarith [le_trans h63 ht1]
  have hexp : f64Exp ((n : Nat) : Rat) = t - 52 := by
    unfold f64Exp
    rw [← hts, if_neg (by omega)]
  obtain ⟨N, hN⟩ : ∃ N : Int, ((n : Nat) : Rat) * (2 : Rat) ^ (-(t - 52)) = (N : Rat) := by
    by_cases hse : t ≤ 52
    · refine ⟨(n : Int) * 2 ^ ((52 - t).toNat), ?_⟩
      have he : -(t - 52) = (((52 - t).toNat : Nat) : Int) := by omega
      rw [he, zpow_natCast]
      push_cast
      ring
    · have hq2 : ((n : Nat) : Rat) = (mm : Rat) * (2 : Rat) ^ ((kk : Nat) : Int) := by
        rw [hn]
        push_cast
        rw [← zpow_natCast (2 : Rat) kk]
      have hkk : t - 52 ≤ (kk : Int) := by
        have hup2 : ((n : Nat) : Rat) < (2 : Rat) ^ ((53 + kk : Nat) : Int) := by
          rw [hq2]
          have hmmQ : (mm : Rat) < ((2 ^ 53 : Nat) : Rat) := by exact_mod_cast hmm
          have h2k : (0 : Rat) < (2 : Rat) ^ ((kk : Nat) : Int) := by positivity
          calc (mm : Rat) * (2 : Rat) ^ ((kk : Nat) : Int)
              < ((2 ^ 53 : Nat) : Rat) * (2 : Rat) ^ ((kk : Nat) : Int) := by
                exact mul_lt_mul_of_pos_right hmmQ h2k
            _ = (2 : Rat) ^ ((53 + kk : Nat) : Int) := by
                rw [Nat.cast_pow]
                rw [show (((2 : Nat) : Rat)) = (2 : Rat) by norm_num]
                rw [← zpow_natCast (2 : Rat) 53, ← zpow_add₀ (two_ne_zero)]
                congr 1
        have : (2 : Rat) ^ t < (2 : Rat) ^ ((53 + kk : Nat) : Int) :=
          lt_of_le_of_lt ht1 hup2
        have ht53 : t < ((53 + kk : Nat) : Int) :=
          (zpow_lt_zpow_iff_right₀ one_lt_two).mp this
        omega
      refine ⟨(mm : Int) * 2 ^ (((kk : Int) - (t - 52)).toNat), ?_⟩
      have he : -(t - 52) = (((kk : Int) - (t - 52)).toNat : Int) - (kk : Int) := by
        omega
      rw [hq2, he]
      rw [mul_assoc, ← zpow_add₀ (two_ne_zero : (2 : Rat) ≠ 0)]
      rw [show (kk : Int) + ((((kk : Int) - (t - 52)).toNat : Int) - (kk : Int)) =
        (((kk : Int) - (t - 52)).toNat : Int) by ring]
      rw [zpow_natCast]
      push_cast
      ring
  have hpos : roundF64Pos ((n : Nat) : Rat) = ((n : Nat) : Rat) := by
    unfold roundF64Pos
    rw [hexp, hN, roundHalfEven_intCast, ← hN]
    rw [mul_assoc, ← zpow_add₀ (two_ne_zero : (2 : Rat) ≠ 0)]
    simp
  unfold roundF64
  rw [if_neg (by exact_mod_cast h0), habs, hpos]
  rw [if_pos ?hov, if_neg (not_lt.mpr hq.le)]
  case hov =>
    have h1024 : (2 : Rat) ^ (63 : Int) ≤ (2 : Rat) ^ (1024 : Int) :=
      zpow_le_zpow_right₀ one_le_two (by omega)
    linarith

/-- C5 (amended): for every Number that is a non-negative integer `f64`
value (`n = m * 2^k` with `m < 2^53`) with `n ≤ i64::MAX`, stringifying with
`$` and parsing back with `~` returns `n`; beyond `i64::MAX` the display form
saturates (`*n as i64`) and the parse rounds the printed `i64::MAX` to the
nearest double, so the round-trip fails. -/
theorem c5_roundtrip (n mm kk : Nat) (hmm : mm < 2 ^ 53)
    (hn : n = mm * 2 ^ kk) (h : (n : Int) ≤ i64Max) :
    (callBuiltin "$" [Value.number (n : Rat)]).bind
      (fun v => callBuiltin "~" [v]) = some (Value.number (n : Rat)) := by
  rw [show callBuiltin "$" [Value.number (n : Rat)] =
    some (Value.text (toDisplay (Value.number (n : Rat)))) from rfl]
  rw [toDisplay_natCast n h]
  rw [show (some (Value.text (natToDecStr n))).bind
      (fun v => callBuiltin "~" [v]) =
    callBuiltin "~" [Value.text (natToDecStr n)] from rfl]
  rw [show callBuiltin "~" [Value.text (natToDecStr n)] =
    some (match parseF64 (natToDecStr n) with
      | some q => Value.number q
      | none => Value.number 0) from rfl]
  rw [parseF64_natToDecStr n]
  rw [roundF64_natCast_repr n mm kk hmm hn
    (by simp only [i64Max] at h; omega)]

theorem c5_roundtrip_witness :
    (12345 : Nat) < 2 ^ 53 ∧
    (12345 : Nat) = 12345 * 2 ^ 0 ∧
    ((12345 : Nat) : Int) ≤ i64Max ∧
    (callBuiltin "$" [Value.number ((12345 : Nat) : Rat)]).bind
      (fun v => callBuiltin "~" [v]) =
        some (Value.number ((12345 : Nat) : Rat)) :=
  ⟨by decide, by decide, by decide,
    c5_roundtrip 12345 12345 0 (by decide) (by decide) (by decide)⟩

/-- Concrete rounding fact behind the counterexample: the decimal
`9223372036854775807` (= 2^63 - 1, not a binary64 value) parses to the
nearest double, 2^63. -/
theorem roundF64_i64Max :
    roundF64 ((9223372036854775807 : Nat) : Rat) =
      some ((9223372036854775808 : Nat) : Rat) := by
  have hq : (0 : Rat) < ((9223372036854775807 : Nat) : Rat) := by norm_num
  have habs : |((9223372036854775807 : Nat) : Rat)| =
      ((9223372036854775807 : Nat) : Rat) := abs_of_pos hq
  obtain ⟨ht1, ht2⟩ := ratFloorLog2_spec _ hq
  set t := ratFloorLog2 ((9223372036854775807 : Nat) : Rat) with hts
  have h62 : (2 : Rat) ^ (62 : Int) ≤ ((9223372036854775807 : Nat) : Rat) := by
    calc (2 : Rat) ^ (62 : Int) = (2 : Rat) ^ (62 : Nat) := by
          rw [← zpow_natCast (2 : Rat) 62]
          norm_num
      _ ≤ ((9223372036854775807 : Nat) : Rat) := by norm_num
  have h63 : ((9223372036854775807 : Nat) : Rat) < (2 : Rat) ^ (63 : Int) := by
    calc ((9223372036854775807 : Nat) : Rat) < (2 : Rat) ^ (63 : Nat) := by
          norm_num
      _ = (2 : Rat) ^ (63 : Int) := by
          rw [← zpow_natCast (2 : Rat) 63]
          norm_num
  have ht62 : t = 62 := by
    have hlow : (62 : Int) < t + 1 :=
      (zpow_lt_zpow_iff_right₀ one_lt_two).mp (lt_of_le_of_lt h62 ht2)
    have hhigh : t < (63 : Int) :=
      (zpow_lt_zpow_iff_right₀ one_lt_two).mp (lt_of_le_of_lt ht1 h63)
    omega
  have hexp : f64Exp ((9223372036854775807 : Nat) : Rat) = 10 := by
    unfold f64Exp
    rw [← hts, ht62]
    norm_num
  have hx : ((9223372036854775807 : Nat) : Rat) * (2 : Rat) ^ (-(10 : Int)) =
      ((9007199254740991 : Int) : Rat) + 1023 / 1024 := by
    have h2 : (2 : Rat) ^ (-(10 : Int)) = 1 / 1024 := by
      rw [zpow_neg, show ((10 : Int)) = ((10 : Nat) : Int) by norm_num,
        zpow_natCast]
      norm_num
    rw [h2]
    norm_num
  have hround : roundHalfEven
      (((9223372036854775807 : Nat) : Rat) * (2 : Rat) ^ (-(10 : Int))) =
      9007199254740992 := by
    rw [hx, roundHalfEven_add_big 9007199254740991 (1023 / 1024)
      (by norm_num) (by norm_num)]
    norm_num
  have hpos : roundF64Pos ((9223372036854775807 : Nat) : Rat) =
      ((9223372036854775808 : Nat) : Rat) := by
    unfold roundF64Pos
    rw [hexp, hround]
    rw [show ((10 : Int)) = ((10 : Nat) : Int) by norm_num, zpow_natCast]
    norm_num
  unfold roundF64
  rw [if_neg (by norm_num), habs, hpos]
  rw [if_pos ?hov, if_neg (by norm_num)]
  case hov =>
    calc ((9223372036854775808 : Nat) : Rat) < (2 : Rat) ^ (1024 : Nat) := by
          norm_num
      _ = (2 : Rat) ^ (1024 : Int) := by
          rw [← zpow_natCast (2 : Rat) 1024]
          norm_num

/-- C5, counterexample to the claim as stated: the Number 2^64 (a genuine
non-negative integral `f64` value) displays as `"9223372036854775807"`
because `Display` casts `*n as i64` (a saturating cast); parsing that text
rounds it to the nearest double, 2^63, so `~($ n)` returns
9223372036854775808, not 2^64. -/
theorem c5_counterexample :
    (callBuiltin "$" [Value.number ((18446744073709551616 : Nat) : Rat)]).bind
      (fun v => callBuiltin "~" [v]) =
        some (Value.number ((9223372036854775808 : Nat) : Rat)) ∧
    ((9223372036854775808 : Nat) : Rat) ≠ ((18446744073709551616 : Nat) : Rat) := by
  constructor
  · rw [show callBuiltin "$" [Value.number ((18446744073709551616 : Nat) : Rat)] =
      some (Value.text (toDisplay
        (Value.number ((18446744073709551616 : Nat) : Rat)))) from rfl]
    rw [toDisplay_natCast_big 18446744073709551616 (by decide)]
    rw [show (some (Value.text (natToDecStr 9223372036854775807))).bind
        (fun v => callBuiltin "~" [v]) =
      callBuiltin "~" [Value.text (natToDecStr 9223372036854775807)] from rfl]
    rw [show callBuiltin "~" [Value.text (natToDecStr 9223372036854775807)] =
      some (match parseF64 (natToDecStr 9223372036854775807) with
        | some q => Value.number q
        | none => Value.number 0) from rfl]
    rw [parseF64_natToDecStr 9223372036854775807]
    rw [roundF64_i64Max]
  · intro hq
    have := congrArg Rat.num hq
    simp at this

/-! ## Sorting lemmas for C6

A stable comparator sort ordered by "not greater" is, on any list whose
elements come from one totally ordered homogeneous class, a permutation of
the input that is pairwise ordered; two such sorted permutations of each
other coincide.  The descending comparator is the mirrored ascending one, so
`--` equals the reversed `++`. -/

theorem insertLe_perm {α : Type} (le : α → α → Bool) (a : α) :
    ∀ l : List α, (insertLe le a l).Perm (a :: l) := by
  intro l
  induction l with
  | nil => simp [insertLe]
  | cons b t ih =>
    simp only [insertLe]
    split
    · exact List.Perm.refl _
    · exact ((ih.cons b).trans (List.Perm.swap a b t))

theorem sortByLe_perm {α : Type} (le : α → α → Bool) :
    ∀ l : List α, (sortByLe le l).Perm l := by
  intro l
  induction l with
  | nil => simp [sortByLe]
  | cons a t ih =>
    simp only [sortByLe]
    exact (insertLe_perm le a (sortByLe le t)).trans (ih.cons a)

theorem insertLe_pairwise {α : Type} (le : α → α → Bool)
    (htot : ∀ a b, le a b = true ∨ le b a = true)
    (htr : ∀ a b c, le a b = true → le b c = true → le a c = true) (a : α) :
    ∀ l : List α, l.Pairwise (fun x y => le x y = true) →
      (insertLe le a l).Pairwise (fun x y => le x y = true) := by
  intro l
  induction l with
  | nil => intro _; simp [insertLe]
  | cons b t ih =>
    intro hp
    obtain ⟨hb, ht⟩ := List.pairwise_cons.mp hp
    simp only [insertLe]
    split
    · rename_i hab
      refine List.pairwise_cons.mpr ⟨?_, hp⟩
      intro x hx
      rcases List.mem_cons.mp hx with rfl | hx
      · exact hab
      · exact htr a b x hab (hb x hx)
    · rename_i hnab
      have hba : le b a = true := by
        rcases htot a b with h | h
        · exact absurd h hnab
        · exact h
      refine List.pairwise_cons.mpr ⟨?_, ih ht⟩
      intro x hx
      have hx2 := (insertLe_perm le a t).mem_iff.mp hx
      rcases List.mem_cons.mp hx2 with rfl | hx2
      · exact hba
      · exact hb x hx2

theorem sortByLe_pairwise {α : Type} (le : α → α → Bool)
    (htot : ∀ a b, le a b = true ∨ le b a = true)
    (htr : ∀ a b c, le a b = true → le b c = true → le a c = true) :
    ∀ l : List α, (sortByLe le l).Pairwise (fun x y => le x y = true) := by
  intro l
  induction l with
  | nil => simp [sortByLe]
  | cons a t ih =>
    simp only [sortByLe]
    exact insertLe_pairwise le htot htr a (sortByLe le t) ih

theorem eq_of_perm_pairwise {α : Type} (le : α → α → Bool)
    (hanti : ∀ a b, le a b = true → le b a = true → a = b) :
    ∀ (l₁ l₂ : List α), l₁.Perm l₂ →
      l₁.Pairwise (fun x y => le x y = true) →
      l₂.Pairwise (fun x y => le x y = true) → l₁ = l₂ := by
  intro l₁
  induction l₁ with
  | nil =>
    intro l₂ hp _ _
    exact hp.nil_eq
  | cons a t₁ ih =>
    intro l₂ hp h₁ h₂
    cases l₂ with
    | nil => exact List.noConfusion hp.symm.nil_eq
    | cons b t₂ =>
      obtain ⟨ha1, ht₁⟩ := List.pairwise_cons.mp h₁
      obtain ⟨hb1, ht₂⟩ := List.pairwise_cons.mp h₂
      by_cases hab : a = b
      · subst hab
        have htp : t₁.Perm t₂ := hp.cons_inv
        rw [ih t₂ htp ht₁ ht₂]
      · exfalso
        have hain : a ∈ b :: t₂ := hp.mem_iff.mp (by simp)
        have hbin : b ∈ a :: t₁ := hp.mem_iff.mpr (by simp)
        have hat₂ : a ∈ t₂ := by
          rcases List.mem_cons.mp hain with h | h
          · exact absurd h hab
          · exact h
        have hbt₁ : b ∈ t₁ := by
          rcases List.mem_cons.mp hbin with h | h
          · exact absurd h.symm hab
          · exact h
        exact hab (hanti a b (ha1 b hbt₁) (hb1 a hat₂))

theorem sortByLe_desc_eq_reverse {α : Type} [LinearOrder α] (l : List α) :
    sortByLe (fun a b => decide (b ≤ a)) l =
      (sortByLe (fun a b => decide (a ≤ b)) l).reverse := by
  have htotg : ∀ a b : α, decide (b ≤ a) = true ∨ decide (a ≤ b) = true := by
    intro a b
    rcases le_total a b with h | h
    · right; exact decide_eq_true h
    · left; exact decide_eq_true h
  have htotl : ∀ a b : α, decide (a ≤ b) = true ∨ decide (b ≤ a) = true :=
    fun a b => (htotg a b).symm
  have htrg : ∀ a b c : α, decide (b ≤ a) = true → decide (c ≤ b) = true →
      decide (c ≤ a) = true := by
    intro a b c h1 h2
    exact decide_eq_true (le_trans (of_decide_eq_true h2) (of_decide_eq_true h1))
  have htrl : ∀ a b c : α, decide (a ≤ b) = true → decide (b ≤ c) = true →
      decide (a ≤ c) = true := by
    intro a b c h1 h2
    exact decide_eq_true (le_trans (of_decide_eq_true h1) (of_decide_eq_true h2))
  have hanti : ∀ a b : α, decide (b ≤ a) = true →
      decide (a ≤ b) = true → a = b := by
    intro a b h1 h2
    exact le_antisymm (of_decide_eq_true h2) (of_decide_eq_true h1)
  refine eq_of_perm_pairwise (fun a b => decide (b ≤ a)) hanti _ _ ?_ ?_ ?_
  · exact ((sortByLe_perm (fun a b => decide (b ≤ a)) l).trans
      (sortByLe_perm (fun a b => decide (a ≤ b)) l).symm).trans
      (List.reverse_perm _).symm
  · exact sortByLe_pairwise _ htotg htrg l
  · rw [List.pairwise_reverse]
    exact sortByLe_pairwise (fun a b : α => decide (a ≤ b)) htotl htrl l

theorem insertLe_map {α β : Type} (f : α → β) (le₁ : α → α → Bool)
    (le₂ : β → β → Bool) (hle : ∀ a b, le₂ (f a) (f b) = le₁ a b) (a : α) :
    ∀ l : List α, insertLe le₂ (f a) (l.map f) = (insertLe le₁ a l).map f := by
  intro l
  induction l with
  | nil => simp [insertLe]
  | cons b t ih =>
    simp only [List.map_cons, insertLe, hle]
    split
    · simp
    · simp [ih]

theorem sortByLe_map {α β : Type} (f : α → β) (le₁ : α → α → Bool)
    (le₂ : β → β → Bool) (hle : ∀ a b, le₂ (f a) (f b) = le₁ a b) :
    ∀ l : List α, sortByLe le₂ (l.map f) = (sortByLe le₁ l).map f := by
  intro l
  induction l with
  | nil => rfl
  | cons a t ih =>
    simp only [List.map_cons, sortByLe, ih]
    exact insertLe_map f le₁ le₂ hle a (sortByLe le₁ t)

theorem cmpToLe_asc_number (x y : Rat) :
    cmpToLe valueCmpAsc (.number x) (.number y) = decide (x ≤ y) := by
  simp only [cmpToLe, valueCmpAsc, ratCmp]
  rcases lt_trichotomy x y with h | h | h
  · simp [h, le_of_lt h]
  · subst h
    simp
  · simp [not_lt_of_gt h, ne_of_gt h, not_le_of_gt h]

theorem cmpToLe_desc_number (x y : Rat) :
    cmpToLe valueCmpDesc (.number x) (.number y) = decide (y ≤ x) := by
  simp only [cmpToLe, valueCmpDesc, ratCmp]
  rcases lt_trichotomy y x with h | h | h
  · simp [h, le_of_lt h]
  · subst h
    simp
  · simp [not_lt_of_gt h, ne_of_gt h, not_le_of_gt h]

theorem cmpToLe_asc_text (x y : String) :
    cmpToLe valueCmpAsc (.text x) (.text y) = decide (x ≤ y) := by
  simp only [cmpToLe, valueCmpAsc]
  by_cases h : x ≤ y
  · simp [h, compare_le_iff_le.mpr h]
  · have : compare x y = .gt := compare_gt_iff_gt.mpr (lt_of_not_le h)
    simp [h, this]

theorem cmpToLe_desc_text (x y : String) :
    cmpToLe valueCmpDesc (.text x) (.text y) = decide (y ≤ x) := by
  simp only [cmpToLe, valueCmpDesc]
  by_cases h : y ≤ x
  · simp [h, compare_le_iff_le.mpr h]
  · have : compare y x = .gt := compare_gt_iff_gt.mpr (lt_of_not_le h)
    simp [h, this]

theorem all_number_exists_map (xs : List Value) (h : xs.all isNumberV = true) :
    ∃ ns : List Rat, xs = ns.map Value.number := by
  induction xs with
  | nil => exact ⟨[], rfl⟩
  | cons v t ih =>
    simp only [List.all_cons, Bool.and_eq_true] at h
    obtain ⟨hv, ht⟩ := h
    obtain ⟨ns, rfl⟩ := ih ht
    cases v with
    | number q => exact ⟨q :: ns, rfl⟩
    | text _ => simp [isNumberV] at hv
    | bool _ => simp [isNumberV] at hv
    | nothing => simp [isNumberV] at hv
    | list _ => simp [isNumberV] at hv
    | function _ _ => simp [isNumberV] at hv

theorem all_text_exists_map (xs : List Value) (h : xs.all isTextV = true) :
    ∃ ss : List String, xs = ss.map Value.text := by
  induction xs with
  | nil => exact ⟨[], rfl⟩
  | cons v t ih =>
    simp only [List.all_cons, Bool.and_eq_true] at h
    obtain ⟨hv, ht⟩ := h
    obtain ⟨ss, rfl⟩ := ih ht
    cases v with
    | number _ => simp [isTextV] at hv
    | text s => exact ⟨s :: ss, rfl⟩
    | bool _ => simp [isTextV] at hv
    | nothing => simp [isTextV] at hv
    | list _ => simp [isTextV] at hv
    | function _ _ => simp [isTextV] at hv

/-- On a homogeneous list the descending `sort_by` equals the reversed
ascending `sort_by`. -/
theorem sortDesc_eq_reverse_sortAsc_of_homogeneous (xs : List Value)
    (h : xs.all isNumberV = true ∨ xs.all isTextV = true) :
    sortByLe (cmpToLe valueCmpDesc) xs =
      (sortByLe (cmpToLe valueCmpAsc) xs).reverse := by
  rcases h with h | h
  · obtain ⟨ns, rfl⟩ := all_number_exists_map xs h
    rw [sortByLe_map Value.number (fun a b => decide (b ≤ a))
        (cmpToLe valueCmpDesc) (fun a b => cmpToLe_desc_number a b) ns,
      sortByLe_map Value.number (fun a b => decide (a ≤ b))
        (cmpToLe valueCmpAsc) (fun a b => cmpToLe_asc_number a b) ns,
      ← List.map_reverse, sortByLe_desc_eq_reverse]
  · obtain ⟨ss, rfl⟩ := all_text_exists_map xs h
    rw [sortByLe_map Value.text (fun a b => decide (b ≤ a))
        (cmpToLe valueCmpDesc) (fun a b => cmpToLe_desc_text a b) ss,
      sortByLe_map Value.text (fun a b => decide (a ≤ b))
        (cmpToLe valueCmpAsc) (fun a b => cmpToLe_asc_text a b) ss,
      ← List.map_reverse, sortByLe_desc_eq_reverse]

/-- C6, counterexample to the claim as stated: a List of Numbers may contain
NaN (reachable as `0 / 0`; §7 of the spec counts it as a Number), and the
comparators of `++` and `--` collapse `partial_cmp` against NaN to `Equal`
(`unwrap_or`), so a stable `sort_by` leaves NaN-tied elements in place for
both orders.  At `xs = [NaN, 1.0]` the descending sort is `[NaN, 1]` while
the reversed ascending sort is `[1, NaN]`: the lists differ at position 0,
and `f64` list equality rejects them as well.  `Value.number` carries the
rational model, which cannot express NaN, so the Number comparator arms are
replayed on the extended payload `F64`. -/
theorem c6_counterexample :
    sortByLe (cmpToLe numCmpDesc) [F64.nan, F64.finite 1] =
      [F64.nan, F64.finite 1] ∧
    (sortByLe (cmpToLe numCmpAsc) [F64.nan, F64.finite 1]).reverse =
      [F64.finite 1, F64.nan] ∧
    [F64.nan, F64.finite 1] ≠ [F64.finite 1, F64.nan] ∧
    f64ListBeq [F64.nan, F64.finite 1] [F64.finite 1, F64.nan] = false := by
  refine ⟨rfl, rfl, by decide, rfl⟩

/-- C6 (amended): for every homogeneous List whose elements are all NaN-free
Numbers (every Number value the rational payload expresses) or all Texts,
the built-in descending sort equals the reversed ascending sort:
`--(xs) == <>(++(xs))`. -/
theorem c6_sort_reverse_law (xs : List Value)
    (h : xs.all isNumberV = true ∨ xs.all isTextV = true) :
    (callBuiltin "++" [Value.list xs]).bind (fun v => callBuiltin "<>" [v]) =
      callBuiltin "--" [Value.list xs] := by
  rw [show callBuiltin "++" [Value.list xs] =
    some (Value.list (sortByLe (cmpToLe valueCmpAsc) xs)) from rfl]
  rw [show (some (Value.list (sortByLe (cmpToLe valueCmpAsc) xs))).bind
      (fun v => callBuiltin "<>" [v]) =
    some (Value.list (sortByLe (cmpToLe valueCmpAsc) xs).reverse) from rfl]
  rw [show callBuiltin "--" [Value.list xs] =
    some (Value.list (sortByLe (cmpToLe valueCmpDesc) xs)) from rfl]
  rw [sortDesc_eq_reverse_sortAsc_of_homogeneous xs h]

theorem c6_sort_reverse_law_witness :
    (([Value.number 3, Value.number 1, Value.number 2] : List Value).all
        isNumberV = true ∨
      ([Value.number 3, Value.number 1, Value.number 2] : List Value).all
        isTextV = true) ∧
    (callBuiltin "++" [Value.list [Value.number 3, Value.number 1, Value.number 2]]).bind
        (fun v => callBuiltin "<>" [v]) =
      callBuiltin "--" [Value.list [Value.number 3, Value.number 1, Value.number 2]] :=
  ⟨Or.inl rfl,
    c6_sort_reverse_law [Value.number 3, Value.number 1, Value.number 2]
      (Or.inl rfl)⟩

end Lazy
